import Mathlib

/-!
Verification of the copilot-memory note store and tracker state machinery.

Strings from the JavaScript source are modelled as `List Char` (`Str`), so
that splitting, joining, trimming and the ad hoc line-oriented frontmatter
grammar can be reasoned about by structural induction.  Wherever the source
uses a JavaScript API the embedding follows the semantics of that API:
  - `String.prototype.trim` is modelled by `trim` over the ASCII whitespace
    set (Unicode spaces are not exercised by the repository);
  - `content.split('\n')` is `splitOnNl`, `lines.join('\n')` is `joinNl`;
  - `JSON` / object spread semantics are modelled field-by-field (a field
    present in the right operand wins);
  - filesystem contents are a finite map from path to either readable
    content or an unreadable marker (a read that throws).
-/

abbrev Str := List Char

/-- ASCII fragment of the whitespace class used by JavaScript `trim` / `\s`. -/
def isWs (c : Char) : Bool :=
  c = ' ' || c = '\t' || c = '\n' || c = '\r' || c = '\x0b' || c = '\x0c'

/-- Remove trailing whitespace. -/
def dropTrail (l : Str) : Str := (l.reverse.dropWhile isWs).reverse

/-- JavaScript `s.trim()` (ASCII whitespace). -/
def trim (l : Str) : Str := dropTrail (l.dropWhile isWs)

/-- `s` carries no leading and no trailing whitespace (so `trim` fixes it). -/
def trimmedB (s : Str) : Bool :=
  (s.dropWhile isWs = s) && (dropTrail s = s)

/-- `s` contains no newline character. -/
def noNl (s : Str) : Bool := !s.any (· = '\n')

/-- A nonempty, trimmed, newline-free string: the shape every scalar written
by the repository serializer must have to survive a reparse. -/
def saneStr (s : Str) : Bool := !s.isEmpty && trimmedB s && noNl s

/-- JavaScript `content.split('\n')`. -/
def splitOnNl : Str → List Str
  | [] => [[]]
  | c :: rest =>
    let r := splitOnNl rest
    if c = '\n' then [] :: r
    else
      match r with
      | [] => [[c]]
      | l :: ls => (c :: l) :: ls

/-- JavaScript `lines.join('\n')`. -/
def joinNl : List Str → Str
  | [] => []
  | [l] => l
  | l :: ls => l ++ '\n' :: joinNl ls

/-! ## Frontmatter codec (src/utils/frontmatter.js) -/

/-- A frontmatter value as the repository handles it: `null`, a string, or an
array of strings.  The line-oriented parser only ever produces `vstr` and
`varr`; the note-creation helpers also put `null` into objects that are then
serialized (JavaScript renders it as the text `null`). -/
inductive FmValue where
  | vnull : FmValue
  | vstr : Str → FmValue
  | varr : List Str → FmValue
deriving DecidableEq, Repr

/-- A frontmatter object: an insertion-ordered association list, as a
JavaScript object with string/array/null values. -/
abbrev Frontmatter := List (Str × FmValue)

/-- The lines `serializeFrontmatter` emits for one `key: value` entry:
a `${key}: ${value}` line for scalars (JavaScript stringifies `null` as
`null`), or a `key:` line followed by one `  - item` line per element. -/
def itemLine (it : Str) : Str := ' ' :: ' ' :: '-' :: ' ' :: it

def serializeValueLines (k : Str) : FmValue → List Str
  | .vnull => [k ++ (": null").toList]
  | .vstr s => [k ++ ':' :: ' ' :: s]
  | .varr items => (k ++ [':']) :: items.map itemLine

/-- All field lines of a frontmatter object, in insertion order. -/
def fieldLines (fm : Frontmatter) : List Str :=
  (fm.map (fun p => serializeValueLines p.1 p.2)).flatten

/-- `serializeFrontmatter(frontmatter, body)`: `---`, the field lines, `---`,
an empty line, then the body, joined with newlines. -/
def serializeFrontmatter (fm : Frontmatter) (body : Str) : Str :=
  joinNl (("---").toList :: (fieldLines fm ++ [("---").toList, [], body]))

/-- The array-item pattern `^\s*-\s+`: on success returns the trimmed payload
(the source strips the matched prefix and trims the remainder, which is the
same as trimming everything after the dash). -/
def matchArrayItem (l : Str) : Option Str :=
  match l.dropWhile isWs with
  | '-' :: rest =>
    match rest with
    | c :: _ => if isWs c then some (trim rest) else none
    | [] => none
  | _ => none

/-- The key-value pattern `^([^:]+):\s*(.*)$`: the key is everything before
the first colon (nonempty), and both key and value are trimmed as in the
source (`key.trim()`, `value.trim()`). -/
def matchKV (l : Str) : Option (Str × Str) :=
  let key := l.takeWhile (fun c => c != ':')
  if key.isEmpty then none
  else if key.length = l.length then none
  else some (trim key, trim (l.drop (key.length + 1)))

/-- JavaScript `frontmatter[key] = value`: overwrite in place when the key is
already present, otherwise append. -/
def objSet (acc : Frontmatter) (k : Str) (v : FmValue) : Frontmatter :=
  if acc.any (fun p => p.1 = k) then
    acc.map (fun p => if p.1 = k then (p.1, v) else p)
  else acc ++ [(k, v)]

/-- JavaScript `currentArray.push(value)` where `currentArray` is the array
stored at key `k` (the parser only pushes while that binding is live). -/
def pushItem (acc : Frontmatter) (k : Str) (it : Str) : Frontmatter :=
  acc.map (fun p =>
    if p.1 = k then
      (p.1, match p.2 with
            | .varr l => FmValue.varr (l ++ [it])
            | v => v)
    else p)

/-- The line loop of `parseFrontmatter`: blank lines are skipped, array items
are pushed onto the array opened by the most recent `key:` line (dropped when
no array is open), and `key: value` lines either open an array (empty value)
or record a scalar and close any open array. -/
def parseLines : List Str → Frontmatter → Option Str → Frontmatter
  | [], acc, _ => acc
  | l :: ls, acc, cur =>
    if trim l = [] then parseLines ls acc cur
    else
      match matchArrayItem l with
      | some it =>
        match cur with
        | some k => parseLines ls (pushItem acc k it) cur
        | none => parseLines ls acc cur
      | none =>
        match matchKV l with
        | some (k, v) =>
          if v = [] then parseLines ls (objSet acc k (.varr [])) (some k)
          else parseLines ls (objSet acc k (.vstr v)) none
        | none => parseLines ls acc cur

/-- Search for a closing `---` line that still has a line after it (the
closer of `([\s\S]*?)\n---\n` must be preceded and followed by a newline);
the first hit wins (non-greedy).  Returns the frontmatter lines before it
and the body lines after it. -/
def findCloser0 : List Str → Option (List Str × List Str)
  | [] => none
  | l :: ls =>
    if l = ("---").toList ∧ ls ≠ [] then some ([], ls)
    else
      match findCloser0 ls with
      | some (f, b) => some (l :: f, b)
      | none => none

/-- Find the closing `---` of the frontmatter block.  The line directly after
the opening `---` can never be the closer: the regex consumes the opener
together with its newline, and the closer needs a preceding newline of its
own, so at least one frontmatter line must stand in between. -/
def findCloser : List Str → Option (List Str × List Str)
  | [] => none
  | l :: ls =>
    match findCloser0 ls with
    | some (f, b) => some (l :: f, b)
    | none => none

/-- Result of `parseFrontmatter`. -/
structure ParsedDoc where
  frontmatter : Frontmatter
  body : Str
deriving DecidableEq, Repr

/-- `parseFrontmatter(content)`: match `^---\n([\s\S]*?)\n---\n([\s\S]*)$`;
on failure return an empty object and the whole content; on success run the
line loop on the frontmatter block and trim the body. -/
def parseFrontmatter (content : Str) : ParsedDoc :=
  match splitOnNl content with
  | [] => { frontmatter := [], body := content }
  | first :: rest =>
    if first = ("---").toList then
      match findCloser rest with
      | some (front, bodyLines) =>
        { frontmatter := parseLines front [] none
          body := trim (joinNl bodyLines) }
      | none => { frontmatter := [], body := content }
    else { frontmatter := [], body := content }

/-- A key survives the reparse unchanged: nonempty, trimmed, no colon, no
newline, and not mistakable for an array item (`-` followed by whitespace). -/
def validKey (k : Str) : Bool :=
  !k.isEmpty && trimmedB k && !k.any (· = ':') && noNl k &&
    (match k with
     | '-' :: c :: _ => !isWs c
     | _ => true)

/-- An array item survives the reparse unchanged: trimmed and newline-free. -/
def validItem (it : Str) : Bool := trimmedB it && noNl it

/-- A value the serializer can write and the parser reads back (null values
are re-read as the string `null`, see `normVal`). -/
def validValue : FmValue → Bool
  | .vnull => true
  | .vstr s => !s.isEmpty && trimmedB s && noNl s
  | .varr items => items.all validItem

/-- Keys are pairwise distinct. -/
def keysNodup : Frontmatter → Bool
  | [] => true
  | (k, _) :: rest => !rest.any (fun p => p.1 = k) && keysNodup rest

/-- A frontmatter object the codec round-trips: nonempty, valid keys and
values, no duplicate keys. -/
def validFm (fm : Frontmatter) : Bool :=
  !fm.isEmpty && fm.all (fun p => validKey p.1 && validValue p.2) && keysNodup fm

/-- What one reparse does to a written value: `null` comes back as the
string `null`; strings and arrays come back unchanged. -/
def normVal : FmValue → FmValue
  | .vnull => .vstr ("null").toList
  | v => v

/-- `normVal` applied to every field of a frontmatter object. -/
def normFm (fm : Frontmatter) : Frontmatter :=
  fm.map (fun p => (p.1, normVal p.2))

/-! ## Filesystem and note store (src/adapters/filesystem.js)

A filesystem is a finite map from path to file state.  A file is either
readable with some content, or present but unreadable (`Except.error ()`,
modelling a `readFile` that throws while `existsSync` is true). -/

instance {ε α : Type} [DecidableEq ε] [DecidableEq α] : DecidableEq (Except ε α) :=
  fun a b =>
    match a, b with
    | .ok x, .ok y =>
      match decEq x y with
      | isTrue h => isTrue (h ▸ rfl)
      | isFalse h => isFalse (fun hh => h (Except.ok.inj hh))
    | .error x, .error y =>
      match decEq x y with
      | isTrue h => isTrue (h ▸ rfl)
      | isFalse h => isFalse (fun hh => h (Except.error.inj hh))
    | .ok _, .error _ => isFalse (fun hh => Except.noConfusion hh)
    | .error _, .ok _ => isFalse (fun hh => Except.noConfusion hh)

structure FS where
  files : List (Str × Except Unit Str)
deriving DecidableEq, Repr

def fsEmpty : FS := { files := [] }

def fsLookup (fs : FS) (p : Str) : Option (Except Unit Str) :=
  (fs.files.find? (fun e => e.1 = p)).map (fun e => e.2)

/-- `existsSync`. -/
def fsExists (fs : FS) (p : Str) : Bool := (fsLookup fs p).isSome

/-- `writeFile`: overwrite in place or append a new entry. -/
def fsWrite (fs : FS) (p : Str) (c : Str) : FS :=
  if fs.files.any (fun e => e.1 = p) then
    { files := fs.files.map (fun e => if e.1 = p then (e.1, Except.ok c) else e) }
  else { files := fs.files ++ [(p, Except.ok c)] }

/-- `unlink`: remove the entry. -/
def fsUnlink (fs : FS) (p : Str) : FS :=
  { files := fs.files.filter (fun e => !(e.1 = p : Bool)) }

structure Note where
  path : Str
  frontmatter : Frontmatter
  body : Str
deriving DecidableEq, Repr

/-- `FilesystemAdapter.createNote(path, frontmatter, body)`: serialize, create
the parent directory (`mkdir` recursive, not represented in the file map),
write the file, and return `{ path, frontmatter, body }` as given. -/
def createNote (fs : FS) (path : Str) (fm : Frontmatter) (body : Str) : FS × Note :=
  (fsWrite fs path (serializeFrontmatter fm body),
   { path := path, frontmatter := fm, body := body })

/-- `FilesystemAdapter.readNote(path)`: throw `Note not found` when the path
does not exist, propagate a `readFile` failure, otherwise parse. -/
def readNote (fs : FS) (p : Str) : Except Str Note :=
  if fsExists fs p then
    match fsLookup fs p with
    | some (Except.ok content) =>
      Except.ok { path := p
                  frontmatter := (parseFrontmatter content).frontmatter
                  body := (parseFrontmatter content).body }
    | _ => Except.error ("read failed").toList
  else Except.error (("Note not found: ").toList ++ p)

/-- `FilesystemAdapter.updateNote(path, frontmatter, body)`: serialize and
write (no directory creation), returning the note as given. -/
def updateNote (fs : FS) (path : Str) (fm : Frontmatter) (body : Str) : FS × Note :=
  (fsWrite fs path (serializeFrontmatter fm body),
   { path := path, frontmatter := fm, body := body })

/-! ## Frontmatter helpers (src/utils/frontmatter.js) -/

/-- The required fields of `validateFrontmatter`. -/
def requiredFields : List Str :=
  [("id").toList, ("type").toList, ("created_at").toList, ("updated_at").toList,
   ("session_id").toList, ("phase_id").toList, ("status").toList,
   ("tags").toList, ("links").toList]

structure ValidationResult where
  valid : Bool
  missing : List Str
deriving DecidableEq, Repr

/-- `validateFrontmatter(frontmatter)`: collect the required fields that are
not present; valid iff none are missing. -/
def validateFrontmatter (fm : Frontmatter) : ValidationResult :=
  let missing := requiredFields.filter (fun f => !fm.any (fun p => p.1 = f))
  { valid := missing.isEmpty, missing := missing }

/-- `createFrontmatter(type, options)`: the nine standard fields in insertion
order, then the `extra` fields spread on top (`objSet` is JavaScript object
assignment).  Defaulting of the individual options (`options.id ||
randomUUID()` and so on) is performed by the callers of this model, which
pass the already-resolved values exactly as the source computes them. -/
def createFrontmatter (type id now : Str) (sessionVal phaseVal : FmValue)
    (status : Str) (tags lks : List Str) (extra : Frontmatter) : Frontmatter :=
  let base : Frontmatter :=
    [(("id").toList, .vstr id),
     (("type").toList, .vstr type),
     (("created_at").toList, .vstr now),
     (("updated_at").toList, .vstr now),
     (("session_id").toList, sessionVal),
     (("phase_id").toList, phaseVal),
     (("status").toList, .vstr status),
     (("tags").toList, .varr tags),
     (("links").toList, .varr lks)]
  extra.foldl (fun acc p => objSet acc p.1 p.2) base

/-- Look a key up in a frontmatter object (JavaScript property access). -/
def lookupFm (fm : Frontmatter) (k : Str) : Option FmValue :=
  (fm.find? (fun p => p.1 = k)).map (fun p => p.2)

/-! ## Filename convention (src/config.js)

`generateFilename` formats `YYYYMMDD-HHmmssZ--<type>--<scope>--<slug>.md`
out of `date.toISOString()` substrings; `parseFilename` is the regex
`^(\d{8}-\d{6}Z)--(.+?)--(.+?)--(.+)\.md$` with non-greedy groups, modelled
by an explicit left-to-right backtracking search over the `--` separator
positions (a `.` group never spans a newline). -/

structure DateTime where
  year : Nat
  month : Nat
  day : Nat
  hour : Nat
  minute : Nat
  second : Nat
  ms : Nat
deriving DecidableEq, Repr

def digitChar (n : Nat) : Char :=
  match n with
  | 0 => '0' | 1 => '1' | 2 => '2' | 3 => '3' | 4 => '4'
  | 5 => '5' | 6 => '6' | 7 => '7' | 8 => '8' | _ => '9'

def pad2 (n : Nat) : Str := [digitChar (n / 10 % 10), digitChar (n % 10)]

def pad3 (n : Nat) : Str :=
  [digitChar (n / 100 % 10), digitChar (n / 10 % 10), digitChar (n % 10)]

def pad4 (n : Nat) : Str :=
  [digitChar (n / 1000 % 10), digitChar (n / 100 % 10),
   digitChar (n / 10 % 10), digitChar (n % 10)]

/-- `date.toISOString()`: `YYYY-MM-DDTHH:mm:ss.sssZ` (years 0–9999). -/
def toISOString (d : DateTime) : Str :=
  pad4 d.year ++ '-' :: (pad2 d.month ++ '-' :: (pad2 d.day ++ 'T' ::
    (pad2 d.hour ++ ':' :: (pad2 d.minute ++ ':' :: (pad2 d.second ++ '.' ::
      (pad3 d.ms ++ ['Z']))))))

/-- `[a-z0-9]` after lower-casing. -/
def isAlnumLower (c : Char) : Bool := ('a' ≤ c && c ≤ 'z') || ('0' ≤ c && c ≤ '9')

/-- Worker for `collapseRuns`: the flag records whether the previous
character belonged to the non-alphanumeric run currently being replaced. -/
def collapseAux : Str → Bool → Str
  | [], _ => []
  | c :: rest, inRun =>
    if isAlnumLower c then c :: collapseAux rest false
    else if inRun then collapseAux rest true
    else '-' :: collapseAux rest true

/-- `.replace(/[^a-z0-9]+/g, '-')`: each maximal run of non-alphanumeric
characters becomes a single hyphen. -/
def collapseRuns (s : Str) : Str := collapseAux s false

/-- One leading hyphen removed (`^-` can match only once). -/
def dropLeadDash : Str → Str
  | '-' :: r => r
  | s => s

/-- One trailing hyphen removed (`-$` can match only once). -/
def dropTrailDash (s : Str) : Str :=
  if s.getLast? = some '-' then s.dropLast else s

/-- The slug normalization of `generateFilename`: lower-case, collapse runs
of non-alphanumerics to single hyphens, strip a leading/trailing hyphen
(after collapsing, at most one of each can exist). -/
def sanitizeSlug (slug : Str) : Str :=
  dropTrailDash (dropLeadDash (collapseRuns (slug.map Char.toLower)))

/-- The `YYYYMMDD-HHmmssZ` timestamp built from `toISOString` substrings:
`iso.substring(0, 10)` with the hyphens removed, a hyphen,
`iso.substring(11, 19)` with the colons removed, and `Z`. -/
def generateFilename (type scope slug : Str) (d : DateTime) : Str :=
  let iso := toISOString d
  let timestamp := ((iso.take 10).filter (fun c => c != '-')) ++
    '-' :: ((((iso.drop 11).take 8).filter (fun c => c != ':')) ++ ['Z'])
  timestamp ++ '-' :: '-' :: (type ++ '-' :: '-' :: (scope ++ '-' :: '-' ::
    (sanitizeSlug slug ++ (".md").toList)))

def isDigit (c : Char) : Bool := '0' ≤ c && c ≤ '9'

/-- All ways to split off a nonempty-or-empty prefix before a `--`
separator, from the leftmost separator position onwards (the order a
non-greedy `(…?)--` tries them). -/
def splitCands0 : Str → List (Str × Str)
  | [] => []
  | c :: rest =>
    let tailCands := (splitCands0 rest).map (fun pr => (c :: pr.1, pr.2))
    if c = '-' ∧ rest.head? = some '-' then ([], rest.tail) :: tailCands
    else tailCands

/-- Splits with a nonempty prefix, as `(.+?)--` requires. -/
def splitCands : Str → List (Str × Str)
  | [] => []
  | c :: rest => (splitCands0 rest).map (fun pr => (c :: pr.1, pr.2))

structure ParsedFilename where
  timestamp : Str
  type : Str
  scope : Str
  slug : Str
  date : DateTime
deriving DecidableEq, Repr

def digitVal (c : Char) : Nat := c.toNat - 48

/-- Rebuild the `Date` from the timestamp digit positions, truncated to the
second (`new Date(iso minus milliseconds)`). -/
def parseTsDate : Str → DateTime
  | [y1, y2, y3, y4, mo1, mo2, d1, d2, _, h1, h2, mi1, mi2, s1, s2, _] =>
    { year := ((digitVal y1 * 10 + digitVal y2) * 10 + digitVal y3) * 10 + digitVal y4
      month := digitVal mo1 * 10 + digitVal mo2
      day := digitVal d1 * 10 + digitVal d2
      hour := digitVal h1 * 10 + digitVal h2
      minute := digitVal mi1 * 10 + digitVal mi2
      second := digitVal s1 * 10 + digitVal s2
      ms := 0 }
  | _ => { year := 0, month := 0, day := 0, hour := 0, minute := 0, second := 0, ms := 0 }

/-- `parseFilename(filename)`: `^(\d{8}-\d{6}Z)--` is rigid, then the
non-greedy groups try separator positions left to right; the slug is
whatever precedes the final `.md`, nonempty. -/
def parseFilename (f : Str) : Option ParsedFilename :=
  match f with
  | c1 :: c2 :: c3 :: c4 :: c5 :: c6 :: c7 :: c8 :: c9 :: c10 :: c11 :: c12 ::
      c13 :: c14 :: c15 :: c16 :: c17 :: c18 :: rest =>
    if (isDigit c1 && isDigit c2 && isDigit c3 && isDigit c4 &&
        isDigit c5 && isDigit c6 && isDigit c7 && isDigit c8) &&
       (c9 = '-' : Bool) &&
       (isDigit c10 && isDigit c11 && isDigit c12 &&
        isDigit c13 && isDigit c14 && isDigit c15) &&
       (c16 = 'Z' : Bool) && (c17 = '-' : Bool) && (c18 = '-' : Bool) then
      let ts : Str := [c1, c2, c3, c4, c5, c6, c7, c8, c9, c10, c11, c12, c13, c14, c15, c16]
      (splitCands rest).findSome? (fun ty =>
        if noNl ty.1 then
          (splitCands ty.2).findSome? (fun sc =>
            if noNl sc.1 then
              if sc.2.length ≥ 4 ∧ sc.2.drop (sc.2.length - 3) = (".md").toList ∧
                  noNl (sc.2.take (sc.2.length - 3)) then
                some { timestamp := ts, type := ty.1, scope := sc.1
                       slug := sc.2.take (sc.2.length - 3), date := parseTsDate ts }
              else none
            else none)
        else none)
    else none
  | _ => none

/-- Well-formed `type`/`scope` segment: nonempty, free of `--`, not ending
in a hyphen (else the separator search would cut it short), no newline. -/
def hasDD : Str → Bool
  | [] => false
  | [_] => false
  | c1 :: c2 :: rest => (c1 = '-' && c2 = '-') || hasDD (c2 :: rest)

def wfPart (s : Str) : Bool :=
  !s.isEmpty && !hasDD s && !(s.getLast? = some '-' : Bool) && noNl s

def wfDateTime (d : DateTime) : Bool :=
  d.year ≤ 9999 && (1 ≤ d.month && d.month ≤ 12) && (1 ≤ d.day && d.day ≤ 31) &&
  d.hour ≤ 23 && d.minute ≤ 59 && d.second ≤ 59 && d.ms ≤ 999

/-- The timestamp `generateFilename` produces for a date. -/
def timestampOf (d : DateTime) : Str :=
  pad4 d.year ++ pad2 d.month ++ pad2 d.day ++
    '-' :: (pad2 d.hour ++ pad2 d.minute ++ pad2 d.second ++ ['Z'])

/-- Truncation to the second. -/
def truncSec (d : DateTime) : DateTime :=
  { d with ms := 0 }

/-! ## Tracker state store (src/services/tracker.js)

The tracker file is one JSON document.  Values are modelled as far as the
service inspects them (never beyond spread/assignment), the document as a
six-field object whose fields may be absent, and the on-disk file as the
outcome of `readFile` + `JSON.parse`: absent, unreadable (read throws),
invalid JSON (parse throws), valid non-object JSON (spread contributes no
fields), or an object. -/

inductive TVal where
  | tnull
  | tstr (s : Str)
  | tnum (n : Int)
  | tother
deriving DecidableEq, Repr

structure TrackerObj where
  version : Option TVal
  updated_at : Option TVal
  active_phase_id : Option TVal
  current_session_id : Option TVal
  latest_handoff_path : Option TVal
  latest_handoff_id : Option TVal
deriving DecidableEq, Repr

/-- One field of `{...a, ...b}`: a field present in `b` wins. -/
def oSpread (a b : Option TVal) : Option TVal :=
  match b with
  | some v => some v
  | none => a

/-- Object spread `{...a, ...b}` on the six tracker fields. -/
def spreadTracker (a b : TrackerObj) : TrackerObj :=
  { version := oSpread a.version b.version
    updated_at := oSpread a.updated_at b.updated_at
    active_phase_id := oSpread a.active_phase_id b.active_phase_id
    current_session_id := oSpread a.current_session_id b.current_session_id
    latest_handoff_path := oSpread a.latest_handoff_path b.latest_handoff_path
    latest_handoff_id := oSpread a.latest_handoff_id b.latest_handoff_id }

/-- `TrackerService._defaultState()`. -/
def defaultState (nowIso : Str) : TrackerObj :=
  { version := some (.tnum 1)
    updated_at := some (.tstr nowIso)
    active_phase_id := some .tnull
    current_session_id := some .tnull
    latest_handoff_path := some .tnull
    latest_handoff_id := some .tnull }

/-- What reading and JSON-parsing the tracker state file can yield. -/
inductive TrackerFile where
  | absent
  | unreadable
  | invalidJson
  | jsonNonObject
  | jsonObject (p : TrackerObj)
deriving DecidableEq, Repr

/-- `TrackerService.getState()`: `{...defaultState, ...JSON.parse(data)}`;
any failure (missing file, read error, parse error) is caught and yields the
defaults; spreading a non-object contributes no fields. -/
def getState (file : TrackerFile) (nowIso : Str) : TrackerObj :=
  match file with
  | .jsonObject p => spreadTracker (defaultState nowIso) p
  | _ => defaultState nowIso

def allFieldsPresent (t : TrackerObj) : Bool :=
  t.version.isSome && t.updated_at.isSome && t.active_phase_id.isSome &&
  t.current_session_id.isSome && t.latest_handoff_path.isSome &&
  t.latest_handoff_id.isSome

/-- The document written by the critical section of `saveState`:
`{...defaultState, ...current, ...nextState, updated_at: now}` where
`current = getState()` is read inside the lock (`nowRead`/`nowDef` are the
timestamps of the two `_defaultState()` calls, `nowWrite` of the final
explicit stamp). -/
def saveStateCritical (diskAtLock : TrackerFile) (next : TrackerObj)
    (nowRead nowDef nowWrite : Str) : TrackerObj :=
  let current := getState diskAtLock nowRead
  let merged := spreadTracker (spreadTracker (defaultState nowDef) current) next
  { merged with updated_at := some (.tstr nowWrite) }

inductive TkEvent where
  | lockAcquire
  | readState
  | writeState (doc : TrackerObj)
  | lockRelease
deriving DecidableEq, Repr

/-- `saveState` once the lock has been acquired: acquire, re-read the state
from disk, write the merged document, release (close the handle and unlink
the marker). -/
def saveStateEvents (diskAtLock : TrackerFile) (next : TrackerObj)
    (nowRead nowDef nowWrite : Str) : TrackerObj × List TkEvent :=
  let doc := saveStateCritical diskAtLock next nowRead nowDef nowWrite
  (doc, [.lockAcquire, .readState, .writeState doc, .lockRelease])

/-! ## The lock loop (TrackerService._withLock) -/

/-- The result of one `open(lockPath, 'wx')` attempt: success, failure with
code EEXIST (with the outcome of the subsequent `stat`: whether it
succeeded, and `Date.now() - mtimeMs`), or failure with any other code. -/
inductive LockAttempt where
  | success
  | failExist (statOk : Bool) (ageMs : Int)
  | failOther
deriving DecidableEq, Repr

inductive LockOutcome where
  | completed
  | lockTimeout (msg : Str)
  | ioError
  | exhausted
deriving DecidableEq, Repr

/-- Observable trace of one `_withLock` run: outcome, how many acquisition
attempts were made, for every completed failure round whether the stale
marker was removed and how long the sleep was, and whether the critical
section ran. -/
structure LockRun where
  outcome : LockOutcome
  attempts : Nat
  staleRemovals : List Bool
  waits : List Nat
  fnRan : Bool
deriving DecidableEq, Repr

def staleThresholdMs : Int := 30000

/-- Whether the stale check after an attempt removes the marker: only when
`stat` succeeded and the marker is over 30 seconds old. -/
def staleFlag (a : LockAttempt) : Bool :=
  match a with
  | .failExist statOk ageMs => statOk && decide (staleThresholdMs < ageMs)
  | _ => false

/-- The `for (let i = 0; i < retries; i++)` loop of `_withLock`, with the
attempt outcomes supplied by `env`.  On EEXIST at the last iteration it
throws the busy error; otherwise it runs the stale check and sleeps
`waitMs` before retrying.  Any other open failure propagates immediately.
`exhausted` marks the unreachable fall-through after the loop. -/
def withLockGo (env : Nat → LockAttempt) (waitMs : Nat) : Nat → Nat → LockRun
  | _, 0 => { outcome := .exhausted, attempts := 0, staleRemovals := [], waits := [], fnRan := false }
  | i, fuel + 1 =>
    match env i with
    | .success =>
      { outcome := .completed, attempts := 1, staleRemovals := [], waits := [], fnRan := true }
    | .failOther =>
      { outcome := .ioError, attempts := 1, staleRemovals := [], waits := [], fnRan := false }
    | .failExist statOk ageMs =>
      if fuel = 0 then
        { outcome := .lockTimeout ("Tracker state is busy, try again").toList,
          attempts := 1, staleRemovals := [], waits := [], fnRan := false }
      else
        let removed := statOk && decide (staleThresholdMs < ageMs)
        let rest := withLockGo env waitMs (i + 1) fuel
        { outcome := rest.outcome, attempts := rest.attempts + 1,
          staleRemovals := removed :: rest.staleRemovals,
          waits := waitMs :: rest.waits, fnRan := rest.fnRan }

/-- `_withLock(fn)` with the default `retries = 100`, `waitMs = 20`. -/
def withLock (env : Nat → LockAttempt) : LockRun := withLockGo env 20 0 100

/-! ## Prune service (src/services/prune.js)

Time is modelled in milliseconds since the epoch; `setDate(getDate() - days)`
subtracts `days` calendar days, which in UTC (no daylight saving) is exactly
`days * 86400000` ms.  The adapter is abstracted by `stats` (the result of
`getStats`: `none` models the null returned for a missing file) and
`deleteOk` (whether `unlink` succeeds). -/

def msPerDay : Int := 86400000

/-- The `prune` cutoff: `now - days` days, nudged one second forward when
`days = 0` so a note created at the invocation instant qualifies. -/
def pruneCutoff (nowMs : Int) (days : Nat) : Int :=
  let cutoff := nowMs - days * msPerDay
  if days = 0 then cutoff + 1000 else cutoff

/-- The `pruneResearch` cutoff: `now - days` days; there is no day-0 nudge
in this method. -/
def pruneResearchCutoff (nowMs : Int) (days : Nat) : Int :=
  nowMs - days * msPerDay

structure PruneStat where
  mtimeMs : Int
  size : Int
deriving DecidableEq, Repr

structure PruneResults where
  cutoff : Int
  candidates : List (Str × PruneStat)
  deleted : List Str
  errors : List Str
deriving DecidableEq, Repr

/-- The per-file loop of `prune`: a note with stats and `mtime < cutoff` is
recorded as a candidate; unless dry-run it is unlinked, a successful unlink
recorded under `deleted`, a throwing one caught and recorded under
`errors`; the loop continues either way. -/
def pruneScanGo (stats : Str → Option PruneStat) (deleteOk : Str → Bool)
    (dryRun : Bool) (cutoff : Int) : List Str → PruneResults → PruneResults
  | [], acc => acc
  | path :: rest, acc =>
    match stats path with
    | some st =>
      if st.mtimeMs < cutoff then
        let acc2 := { acc with candidates := acc.candidates ++ [(path, st)] }
        if dryRun then pruneScanGo stats deleteOk dryRun cutoff rest acc2
        else if deleteOk path then
          pruneScanGo stats deleteOk dryRun cutoff rest
            { acc2 with deleted := acc2.deleted ++ [path] }
        else
          pruneScanGo stats deleteOk dryRun cutoff rest
            { acc2 with errors := acc2.errors ++ [path] }
      else pruneScanGo stats deleteOk dryRun cutoff rest acc
    | none => pruneScanGo stats deleteOk dryRun cutoff rest acc

/-- `PruneService.prune`: one folder listing after another through the scan
loop. -/
def prune (stats : Str → Option PruneStat) (deleteOk : Str → Bool) (days : Nat)
    (dryRun : Bool) (nowMs : Int) (folderLists : List (List Str)) : PruneResults :=
  let cutoff := pruneCutoff nowMs days
  folderLists.foldl
    (fun acc paths => pruneScanGo stats deleteOk dryRun cutoff paths acc)
    { cutoff := cutoff, candidates := [], deleted := [], errors := [] }

/-- The per-directory loop of `pruneResearch`: like the prune scan, but the
try/catch wraps the whole directory, so a throwing `unlink` silently
abandons the rest of that directory (no error is recorded). -/
def pruneResearchGo (stats : Str → Option PruneStat) (deleteOk : Str → Bool)
    (dryRun : Bool) (cutoff : Int) : List Str → PruneResults → PruneResults
  | [], acc => acc
  | path :: rest, acc =>
    match stats path with
    | some st =>
      if st.mtimeMs < cutoff then
        let acc2 := { acc with candidates := acc.candidates ++ [(path, st)] }
        if dryRun then pruneResearchGo stats deleteOk dryRun cutoff rest acc2
        else if deleteOk path then
          pruneResearchGo stats deleteOk dryRun cutoff rest
            { acc2 with deleted := acc2.deleted ++ [path] }
        else acc2
      else pruneResearchGo stats deleteOk dryRun cutoff rest acc
    | none => pruneResearchGo stats deleteOk dryRun cutoff rest acc

/-- `PruneService.pruneResearch`: each research directory listing through
the directory loop (a missing directory simply contributes no listing). -/
def pruneResearch (stats : Str → Option PruneStat) (deleteOk : Str → Bool)
    (days : Nat) (dryRun : Bool) (nowMs : Int)
    (researchDirs : List (List Str)) : PruneResults :=
  let cutoff := pruneResearchCutoff nowMs days
  researchDirs.foldl
    (fun acc paths => pruneResearchGo stats deleteOk dryRun cutoff paths acc)
    { cutoff := cutoff, candidates := [], deleted := [], errors := [] }

/-- Candidate test: stats exist and the modification time is strictly
before the cutoff. -/
def candAt (stats : Str → Option PruneStat) (cutoff : Int) (p : Str) :
    Option (Str × PruneStat) :=
  match stats p with
  | some st => if st.mtimeMs < cutoff then some (p, st) else none
  | none => none

/-! ## Index service: catalog generation (src/services/index.js)

The adapter surface is abstracted: `stats` is `getStats` (null for a missing
file), directory listings are passed in traversal order, and phase notes are
read through the filesystem model.  Decimal rendering of the totals uses a
fuel-bounded digit writer. -/

def natDigitsGo : Nat → Nat → Str
  | 0, _ => []
  | fuel + 1, n => if n < 10 then [digitChar n] else natDigitsGo fuel (n / 10) ++ [digitChar (n % 10)]

def natToChars (n : Nat) : Str := natDigitsGo (n + 1) n

def splitOnSlash : Str → List Str
  | [] => [[]]
  | c :: rest =>
    let r := splitOnSlash rest
    if c = '/' then [] :: r
    else
      match r with
      | [] => [[c]]
      | l :: ls => (c :: l) :: ls

/-- `basename(path)` from the `path` module: the last slash-separated
component. -/
def basenameOf (p : Str) : Str := (splitOnSlash p).getLastD []

structure StatInfo where
  mtimeMs : Int
  mtimeIso : Str
deriving DecidableEq, Repr

/-- A catalog entry: the path and its `stats.mtime`, carried both as the
ISO string the source stores in `item.date` and as the time value that
`new Date(item.date)` yields back for the sort comparator. -/
structure CatalogItem where
  path : Str
  date : StatInfo
deriving DecidableEq, Repr

/-- The sort order of `(a, b) => new Date(b.date) - new Date(a.date)`:
newest first. -/
def catalogLe (a b : CatalogItem) : Prop := b.date.mtimeMs ≤ a.date.mtimeMs

instance : DecidableRel catalogLe :=
  fun a b => inferInstanceAs (Decidable (b.date.mtimeMs ≤ a.date.mtimeMs))

instance : IsTotal CatalogItem catalogLe :=
  ⟨fun a b => le_total b.date.mtimeMs a.date.mtimeMs⟩

instance : IsTrans CatalogItem catalogLe :=
  ⟨fun _ _ _ hab hbc => le_trans hbc hab⟩

/-- `items.sort(comparator)`: JavaScript array sort is stable, and a stable
sort by a total preorder has a unique result, here given by insertion
sort. -/
def sortByMtimeDesc (l : List CatalogItem) : List CatalogItem :=
  List.insertionSort catalogLe l

/-- `IndexService._catalogSection`: list the directory, keep entries with
stats, sort newest first. -/
def catalogSection (stats : Str → Option StatInfo) (paths : List Str) : List CatalogItem :=
  sortByMtimeDesc (paths.filterMap (fun p => (stats p).map (fun st => ⟨p, st⟩)))

structure PhaseItem where
  path : Str
  title : Option FmValue
  status : Option FmValue
deriving DecidableEq, Repr

/-- One phase note of `_catalogPhases`: unreadable notes are skipped. -/
def phaseItemOf (fs : FS) (p : Str) : Option PhaseItem :=
  match readNote fs p with
  | .ok note =>
    some { path := p
           title := lookupFm note.frontmatter ("title").toList
           status := lookupFm note.frontmatter ("status").toList }
  | .error _ => none

/-- `IndexService._catalogPhases`: read every `phase.md`, in traversal
order, skipping unreadable ones; no stats, no sort. -/
def catalogPhases (fs : FS) (paths : List Str) : List PhaseItem :=
  paths.filterMap (phaseItemOf fs)

/-- JavaScript template rendering of a frontmatter value (`undefined` for a
missing property, `null` for null, `a,b` for an array). -/
def showVal : Option FmValue → Str
  | none => ("undefined").toList
  | some .vnull => ("null").toList
  | some (.vstr s) => s
  | some (.varr items) => (items.intersperse (",").toList).flatten

/-- JavaScript truthiness of a frontmatter value. -/
def fmTruthy : Option FmValue → Bool
  | none => false
  | some .vnull => false
  | some (.vstr s) => !s.isEmpty
  | some (.varr _) => true

def itemEntryLine (it : CatalogItem) : Str :=
  ("- [[").toList ++ basenameOf it.path ++ ("]] - ").toList ++ it.date.mtimeIso ++ ['\n']

/-- The displayed part of the Handoffs/Sessions sections: the first 20
entries and, when more exist, the `... and N more` marker. -/
def sectionDisplay (items : List CatalogItem) : Str :=
  ((items.take 20).map itemEntryLine).flatten ++
    (if items.length > 20 then
      '\n' :: (("... and ").toList ++ natToChars (items.length - 20) ++ (" more\n").toList)
    else [])

def phaseEntryLine (ph : PhaseItem) : Str :=
  ("- [[").toList ++ basenameOf ph.path ++ ("]] - ").toList ++
    (if fmTruthy ph.title then showVal ph.title else ("Untitled").toList) ++
    (" (").toList ++ showVal ph.status ++ (")\n").toList

structure CatalogSections where
  handoffs : List CatalogItem
  sessions : List CatalogItem
  phases : List PhaseItem
deriving DecidableEq, Repr

/-- `IndexService.generateCatalog`: the three sections and the content
string, appended exactly as the source concatenates it.  The Handoffs and
Sessions sections display at most 20 entries; the Phases loop iterates the
whole list. -/
def generateCatalog (fs : FS) (stats : Str → Option StatInfo)
    (handoffPaths sessionPaths phasePaths : List Str) (genIso : Str) :
    Str × CatalogSections :=
  let sections : CatalogSections :=
    { handoffs := catalogSection stats handoffPaths
      sessions := catalogSection stats sessionPaths
      phases := catalogPhases fs phasePaths }
  let content :=
    ("# Vault Catalog\n\n").toList ++
    ("Generated: ").toList ++ genIso ++ ("\n\n").toList ++
    ("## Handoffs\n\n").toList ++
    ("Total: ").toList ++ natToChars sections.handoffs.length ++ ("\n\n").toList ++
    sectionDisplay sections.handoffs ++
    ("\n## Sessions\n\n").toList ++
    ("Total: ").toList ++ natToChars sections.sessions.length ++ ("\n\n").toList ++
    sectionDisplay sections.sessions ++
    ("\n## Phases\n\n").toList ++
    ("Total: ").toList ++ natToChars sections.phases.length ++ ("\n\n").toList ++
    (sections.phases.map phaseEntryLine).flatten
  (content, sections)

/-- Count the displayed entry lines in the Phases section of a rendered
catalog: lines starting with the entry bullet after the `## Phases`
heading. -/
def phasesDisplayedCount (content : Str) : Nat :=
  (((splitOnNl content).dropWhile (fun l => !(l = ("## Phases").toList))).filter
    (fun l => l.take 4 = ("- [[").toList)).length

/-! ## Vault service (src/services/index.js, VaultService)

Paths are vault-relative: `config.getPath(...)` joins the segments under the
vault root, which is a constant prefix shared by every operation and is
dropped here.  `randomUUID()` results and the `new Date()` reads are passed
in as parameters (`createFrontmatter` takes its own ISO clock string; the
index update takes its own uuid and clock). -/

/-- `config.getPath('indexes', 'latest-handoff.md')`. -/
def latestHandoffIndexPath : Str := ("indexes/latest-handoff.md").toList

/-- `s.replace('.md', '')` with a plain-string pattern: remove the first
occurrence of `.md`, scanning left to right; no occurrence leaves `s`. -/
def dropMdOnce : Str → Str
  | '.' :: 'm' :: 'd' :: rest => rest
  | c :: rest => c :: dropMdOnce rest
  | [] => []

/-- JavaScript template interpolation of a frontmatter value: a string is
itself, `null` prints as `null`, an array joins its elements with commas. -/
def jsInterp : FmValue → Str
  | .vstr s => s
  | .vnull => ("null").toList
  | .varr items => List.intercalate ([','] : Str) items

/-- `x || d` on an optional string (`undefined` and the empty string are
falsy). -/
def orElseStr (s : Option Str) (d : Str) : Str :=
  match s with
  | some s => if s.isEmpty then d else s
  | none => d

/-- `options.x || null` as `createFrontmatter` resolves an optional string
field. -/
def orNullVal (s : Option Str) : FmValue :=
  match s with
  | some s => if s.isEmpty then .vnull else .vstr s
  | none => .vnull

/-- The `id` property of a note frontmatter as a template value: a missing
property is `undefined` and prints as the text `undefined`. -/
def fmIdVal (fm : Frontmatter) : FmValue :=
  (lookupFm fm (("id").toList)).getD (.vstr (("undefined").toList))

/-- `VaultService.getLatestHandoff()`: null when the index file does not
exist; the try/catch turns a failing read of the index or of the referenced
note into null; a falsy `handoff_path` (absent, null, empty string) is
skipped, and an array value is truthy but `existsSync` on a non-string path
returns false, so it also falls through to null. -/
def getLatestHandoff (fs : FS) : Option Note :=
  if fsExists fs latestHandoffIndexPath then
    match readNote fs latestHandoffIndexPath with
    | .error _ => none
    | .ok idx =>
      match lookupFm idx.frontmatter (("handoff_path").toList) with
      | some (.vstr p) =>
        if !p.isEmpty && fsExists fs p then
          match readNote fs p with
          | .ok n => some n
          | .error _ => none
        else none
      | _ => none
  else none

/-- The frontmatter `_updateLatestHandoff` builds: `createFrontmatter('index',
...)` with `handoff_path`, `handoff_id` and `title` spread on top. -/
def idxFmOf (note : Note) (idxUuid idxNow : Str) : Frontmatter :=
  createFrontmatter (("index").toList) idxUuid idxNow .vnull .vnull
    (("active").toList)
    [("index").toList, ("latest-handoff").toList] []
    [(("handoff_path").toList, .vstr note.path),
     (("handoff_id").toList, fmIdVal note.frontmatter),
     (("title").toList, .vstr (("Latest Handoff").toList))]

/-- The body `_updateLatestHandoff` writes. -/
def idxContentOf (note : Note) (idxNow : Str) : Str :=
  ("# Latest Handoff\n\nThis index tracks the most recent handoff note.\n\n**Current Handoff:** [[").toList
    ++ dropMdOnce (basenameOf note.path) ++ ("]]\n\n**Path:** ").toList
    ++ note.path ++ ("\n**ID:** ").toList ++ jsInterp (fmIdVal note.frontmatter)
    ++ ("\n**Updated:** ").toList ++ idxNow

/-- `VaultService._updateLatestHandoff(handoffNote)`: write the index note,
updating it when it already exists and creating it otherwise. -/
def updateLatestHandoff (fs : FS) (note : Note) (idxUuid idxNow : Str) : FS :=
  if fsExists fs latestHandoffIndexPath then
    (updateNote fs latestHandoffIndexPath (idxFmOf note idxUuid idxNow)
      (idxContentOf note idxNow)).1
  else
    (createNote fs latestHandoffIndexPath (idxFmOf note idxUuid idxNow)
      (idxContentOf note idxNow)).1

/-- `VaultService.createHandoff(data)`: read the previous handoff through
the index, build the frontmatter (`session_id: sessionId || randomUUID()`,
`phase_id: phaseId || null`, link and `previous_handoff` back-references to
the previous handoff), place the note under the dated `handoffs/YYYY/MM`
folder, prefix the body with a wikilink to the previous handoff when one
exists, create the note and update the latest-handoff index. -/
def createHandoff (fs : FS) (sessionId phaseId : Option Str) (title content : Str)
    (tags : List Str) (noteUuid sessUuid : Str) (nowFm : Str) (now : DateTime)
    (idxUuid idxNow : Str) : FS × Note :=
  let previous := getLatestHandoff fs
  let fm := createFrontmatter (("handoff").toList) noteUuid nowFm
    (orNullVal (some (orElseStr sessionId sessUuid)))
    (orNullVal phaseId)
    (("active").toList)
    (("handoff").toList :: tags)
    (match previous with | some p => [p.path] | none => [])
    [(("title").toList, .vstr title),
     (("previous_handoff").toList,
       match previous with
       | some p => fmIdVal p.frontmatter
       | none => .vnull)]
  let filename := generateFilename (("handoff").toList)
    (orElseStr sessionId (("session").toList)) title now
  let path := ("handoffs/").toList ++ natToChars now.year ++ '/' ::
    (pad2 now.month ++ '/' :: filename)
  let finalContent :=
    match previous with
    | some p => ("## Previous Context\n\n[[").toList ++ dropMdOnce (basenameOf p.path)
        ++ ("]]\n\n").toList ++ content
    | none => content
  let r := createNote fs path fm finalContent
  (updateLatestHandoff r.1 r.2 idxUuid idxNow, r.2)

/-- `VaultService.createPhaseHandoff(data)`: frontmatter with
`session_id: sessionId || null` and `phase_id: phaseId`, the note placed at
`phases/<phaseId>/handoffs/<filename>` with scope `phase`, then the
latest-handoff index update. -/
def createPhaseHandoff (fs : FS) (phaseId : Str) (sessionId : Option Str)
    (title content : Str) (tags : List Str) (noteUuid : Str) (nowFm : Str)
    (now : DateTime) (idxUuid idxNow : Str) : FS × Note :=
  let fm := createFrontmatter (("handoff").toList) noteUuid nowFm
    (orNullVal sessionId)
    (orNullVal (some phaseId))
    (("active").toList)
    (("handoff").toList :: (("phase").toList :: tags))
    []
    [(("title").toList, .vstr title)]
  let filename := generateFilename (("handoff").toList) (("phase").toList) title now
  let path := ("phases/").toList ++ phaseId ++ '/' ::
    (("handoffs/").toList ++ filename)
  let r := createNote fs path fm content
  (updateLatestHandoff r.1 r.2 idxUuid idxNow, r.2)

/-- A handoff-creating operation with all its nondeterministic inputs
(uuids and clock reads) made explicit. -/
inductive HandoffOp where
  | top (sessionId phaseId : Option Str) (title content : Str) (tags : List Str)
      (noteUuid sessUuid : Str) (nowFm : Str) (now : DateTime) (idxUuid idxNow : Str)
  | phaseScoped (phaseId : Str) (sessionId : Option Str) (title content : Str)
      (tags : List Str) (noteUuid : Str) (nowFm : Str) (now : DateTime)
      (idxUuid idxNow : Str)

/-- Run one handoff-creating operation. -/
def applyOp (fs : FS) : HandoffOp → FS × Note
  | .top sid pid t c tg nu su nf now iu inw =>
      createHandoff fs sid pid t c tg nu su nf now iu inw
  | .phaseScoped pid sid t c tg nu nf now iu inw =>
      createPhaseHandoff fs pid sid t c tg nu nf now iu inw

/-- Sanity of the operation inputs: uuids and clock strings are nonempty,
trimmed and newline-free, and identifiers that enter the note path contain
no newline. -/
def opSane : HandoffOp → Bool
  | .top sid _ _ _ _ nu su _ _ iu inw =>
      saneStr nu && noNl su &&
        (match sid with | some s => noNl s | none => true) &&
        saneStr iu && saneStr inw
  | .phaseScoped pid _ _ _ _ nu _ _ iu inw =>
      saneStr nu && noNl pid && saneStr iu && saneStr inw

/-- A concrete top-level handoff operation used to exercise the vault
service on the empty vault. -/
def c4WitnessOp : HandoffOp :=
  HandoffOp.top none none (("Test Handoff").toList) (("body text").toList) []
    (("11111111-aaaa-bbbb-cccc-222222222222").toList)
    (("33333333-aaaa-bbbb-cccc-444444444444").toList)
    (("2024-01-15T14:30:00.123Z").toList)
    { year := 2024, month := 1, day := 15, hour := 14, minute := 30,
      second := 0, ms := 123 }
    (("55555555-aaaa-bbbb-cccc-666666666666").toList)
    (("2024-01-15T14:30:01.000Z").toList)

/-! ## Basic lemmas about the string utilities -/

theorem splitOnNl_ne_nil (s : Str) : splitOnNl s ≠ [] := by
  induction s with
  | nil => simp [splitOnNl]
  | cons c rest ih =>
    simp only [splitOnNl]
    by_cases h : c = '\n'
    · simp [h]
    · simp only [if_neg h]
      cases hr : splitOnNl rest with
      | nil => simp
      | cons l ls => simp

theorem joinNl_cons (l : Str) (ls : List Str) (h : ls ≠ []) :
    joinNl (l :: ls) = l ++ '\n' :: joinNl ls := by
  cases ls with
  | nil => exact absurd rfl h
  | cons x xs => rfl

theorem splitOnNl_cons_nl (rest : Str) :
    splitOnNl ('\n' :: rest) = [] :: splitOnNl rest := by
  simp [splitOnNl]

theorem splitOnNl_cons_ne (c : Char) (rest : Str) (h : ¬ c = '\n')
    (l : Str) (ls : List Str) (hr : splitOnNl rest = l :: ls) :
    splitOnNl (c :: rest) = (c :: l) :: ls := by
  simp [splitOnNl, h, hr]

theorem joinNl_splitOnNl (s : Str) : joinNl (splitOnNl s) = s := by
  induction s with
  | nil => rfl
  | cons c rest ih =>
    by_cases h : c = '\n'
    · subst h
      rw [splitOnNl_cons_nl, joinNl_cons _ _ (splitOnNl_ne_nil rest), ih]
      rfl
    · cases hr : splitOnNl rest with
      | nil => exact absurd hr (splitOnNl_ne_nil rest)
      | cons l ls =>
        rw [splitOnNl_cons_ne c rest h l ls hr]
        rw [hr] at ih
        cases ls with
        | nil => simpa [joinNl] using ih
        | cons y ys =>
          rw [joinNl_cons _ _ (by simp)]
          rw [joinNl_cons _ _ (by simp)] at ih
          simpa using ih

theorem splitOnNl_append_nl (x r : Str) (hx : noNl x = true) :
    splitOnNl (x ++ '\n' :: r) = x :: splitOnNl r := by
  induction x with
  | nil => simpa using splitOnNl_cons_nl r
  | cons c cs ih =>
    simp only [noNl, List.any_cons, Bool.not_eq_true', Bool.or_eq_false_iff,
      decide_eq_false_iff_not] at hx
    have hcs : noNl cs = true := by
      simp only [noNl, Bool.not_eq_true']
      exact hx.2
    cases hr : splitOnNl r with
    | nil => exact absurd hr (splitOnNl_ne_nil r)
    | cons l ls =>
      have ih2 := ih hcs
      rw [hr] at ih2
      have step := splitOnNl_cons_ne c (cs ++ '\n' :: r) hx.1 cs (l :: ls) ih2
      simp [List.cons_append, step, hr]

theorem splitOnNl_joinNl_append (xs : List Str) (b : Str)
    (h : ∀ x ∈ xs, noNl x = true) :
    splitOnNl (joinNl (xs ++ [b])) = xs ++ splitOnNl b := by
  induction xs with
  | nil => rfl
  | cons x xs ih =>
    rw [List.cons_append, joinNl_cons _ _ (by simp), splitOnNl_append_nl _ _ (h x (by simp))]
    rw [ih (fun y hy => h y (by simp [hy]))]
    rfl

theorem trim_eq_of_trimmedB (s : Str) (h : trimmedB s = true) : trim s = s := by
  simp only [trimmedB, Bool.and_eq_true, decide_eq_true_eq] at h
  simp [trim, h.1, h.2]

theorem trim_cons_ws (c : Char) (s : Str) (h : isWs c = true) :
    trim (c :: s) = trim s := by
  simp [trim, List.dropWhile_cons, h]

theorem mem_dropWhile_of_neg (p : Char → Bool) (l : Str) (c : Char)
    (hc : c ∈ l) (hp : p c = false) : c ∈ l.dropWhile p := by
  induction l with
  | nil => simp at hc
  | cons a as ih =>
    by_cases ha : p a = true
    · simp only [List.dropWhile_cons, ha, if_pos rfl]
      rcases List.mem_cons.mp hc with h | h
      · subst h; rw [hp] at ha; simp at ha
      · exact ih h
    · simp only [List.dropWhile_cons, Bool.not_eq_true] at *
      simp [ha, hc]

theorem mem_trim_of_not_ws (l : Str) (c : Char) (hc : c ∈ l) (hw : isWs c = false) :
    c ∈ trim l := by
  have h1 : c ∈ l.dropWhile isWs := mem_dropWhile_of_neg _ _ _ hc hw
  have h2 : c ∈ (l.dropWhile isWs).reverse.dropWhile isWs :=
    mem_dropWhile_of_neg _ _ _ (by simpa using h1) hw
  simp only [trim, dropTrail]
  simpa using h2

theorem trim_ne_nil_of_mem (l : Str) (c : Char) (hc : c ∈ l) (hw : isWs c = false) :
    trim l ≠ [] := by
  intro h
  have := mem_trim_of_not_ws l c hc hw
  rw [h] at this
  simp at this

/-! ## Lemmas about the line patterns -/

theorem head_not_ws_of_trimmed (c : Char) (cs : Str)
    (h : trimmedB (c :: cs) = true) : isWs c = false := by
  simp only [trimmedB, Bool.and_eq_true, decide_eq_true_eq] at h
  by_contra hw
  simp only [Bool.not_eq_false] at hw
  have := h.1
  rw [List.dropWhile_cons, if_pos hw] at this
  have hlen := congrArg List.length this
  simp only [List.length_cons] at hlen
  have : (List.dropWhile isWs cs).length ≤ cs.length :=
    (List.dropWhile_sublist (l := cs) (p := isWs)).length_le
  omega

theorem dropWhile_isWs_head (c : Char) (cs : Str) (h : isWs c = false) :
    List.dropWhile isWs (c :: cs) = c :: cs := by
  rw [List.dropWhile_cons, if_neg (by simp [h])]

theorem takeWhile_ne_colon (k r : Str) (hk : (!k.any (· = ':')) = true) :
    (k ++ ':' :: r).takeWhile (fun c => c != ':') = k := by
  induction k with
  | nil => simp [List.takeWhile_cons]
  | cons c cs ih =>
    simp only [Bool.not_eq_true', List.any_cons, Bool.or_eq_false_iff,
      decide_eq_false_iff_not] at hk
    have ih2 := ih (by simp [hk.2])
    simp only [List.cons_append, List.takeWhile_cons]
    rw [if_pos (by simp [hk.1]), ih2]

theorem matchKV_line (k r : Str) (hne : k ≠ []) (hc : (!k.any (· = ':')) = true) :
    matchKV (k ++ ':' :: r) = some (trim k, trim r) := by
  have htw := takeWhile_ne_colon k r hc
  simp only [matchKV, htw]
  rw [if_neg (by simpa using hne)]
  have hlen : ¬ k.length = (k ++ ':' :: r).length := by
    simp only [List.length_append, List.length_cons]
    omega
  rw [if_neg hlen]
  have hdrop : (k ++ ':' :: r).drop (k.length + 1) = r := by
    have : k ++ ':' :: r = (k ++ [':']) ++ r := by simp
    rw [this, show k.length + 1 = (k ++ [':']).length by simp, List.drop_left]
  rw [hdrop]

theorem matchArrayItem_kv_line (k r : Str) (hk : validKey k = true) :
    matchArrayItem (k ++ ':' :: r) = none := by
  simp only [validKey, Bool.and_eq_true] at hk
  obtain ⟨⟨⟨⟨hne, htr⟩, _⟩, _⟩, hdash⟩ := hk
  cases k with
  | nil => simp at hne
  | cons c cs =>
    have hcw : isWs c = false := head_not_ws_of_trimmed c cs htr
    simp only [matchArrayItem, List.cons_append, dropWhile_isWs_head c _ hcw]
    by_cases hcd : c = '-'
    · subst hcd
      cases cs with
      | nil =>
        simp only [List.nil_append]
        rw [if_neg (by decide)]
      | cons c2 cs2 =>
        have h2 : isWs c2 = false := by simpa using hdash
        simp only [List.cons_append]
        rw [if_neg (by simp [h2])]
    · split
      · rename_i rest heq
        injection heq with h1 _
        exact absurd h1 hcd
      · rfl

theorem matchArrayItem_itemLine (it : Str) :
    matchArrayItem (itemLine it) = some (trim it) := by
  have h1 : List.dropWhile isWs (itemLine it) = '-' :: ' ' :: it := by
    simp [itemLine, List.dropWhile_cons, isWs]
  simp only [matchArrayItem, h1]
  rw [if_pos (by decide)]
  rw [trim_cons_ws ' ' it (by decide)]

theorem trim_kv_line_ne_nil (k r : Str) : trim (k ++ ':' :: r) ≠ [] :=
  trim_ne_nil_of_mem _ ':' (by simp) (by decide)

theorem trim_itemLine_ne_nil (it : Str) : trim (itemLine it) ≠ [] :=
  trim_ne_nil_of_mem _ '-' (by simp [itemLine]) (by decide)

/-! ## Lemmas about the object-building operations -/

theorem objSet_append (acc : Frontmatter) (k : Str) (v : FmValue)
    (h : ∀ p ∈ acc, ¬ p.1 = k) : objSet acc k v = acc ++ [(k, v)] := by
  have hany : acc.any (fun p => p.1 = k) = false := by
    simp only [List.any_eq_false]
    intro p hp
    simpa using h p hp
  simp [objSet, hany]

theorem pushItem_last (done : Frontmatter) (k : Str) (it : Str) (l : List Str)
    (h : ∀ p ∈ done, ¬ p.1 = k) :
    pushItem (done ++ [(k, FmValue.varr l)]) k it =
      done ++ [(k, FmValue.varr (l ++ [it]))] := by
  simp only [pushItem, List.map_append]
  congr 1
  · conv_rhs => rw [← List.map_id done]
    apply List.map_congr_left
    intro p hp
    rw [if_neg (by simpa using h p hp)]
    rfl
  · simp

theorem foldl_pushItem (items : List Str) (done : Frontmatter) (k : Str) (l : List Str)
    (h : ∀ p ∈ done, ¬ p.1 = k) :
    items.foldl (fun a it => pushItem a k it) (done ++ [(k, FmValue.varr l)]) =
      done ++ [(k, FmValue.varr (l ++ items))] := by
  induction items generalizing l with
  | nil => simp
  | cons it its ih =>
    simp only [List.foldl_cons]
    rw [pushItem_last done k it l h, ih (l ++ [it])]
    simp

/-! ## Lemmas about the parse loop on serialized lines -/

theorem parseLines_itemLines (items : List Str) (rest : List Str) (acc : Frontmatter)
    (k : Str) (hv : items.all validItem = true) :
    parseLines (items.map itemLine ++ rest) acc (some k) =
      parseLines rest (items.foldl (fun a it => pushItem a k it) acc) (some k) := by
  induction items generalizing acc with
  | nil => simp
  | cons it its ih =>
    simp only [List.all_cons, Bool.and_eq_true] at hv
    have htr : trim it = it := by
      simp only [validItem, Bool.and_eq_true] at hv
      exact trim_eq_of_trimmedB it hv.1.1
    simp only [List.map_cons, List.cons_append, parseLines]
    rw [if_neg (trim_itemLine_ne_nil it)]
    rw [show matchArrayItem (itemLine it) = some (trim it) from matchArrayItem_itemLine it]
    simp only [htr, List.foldl_cons]
    exact ih _ hv.2

theorem parseLines_kv_step (k s : Str) (ls : List Str) (acc : Frontmatter)
    (cur : Option Str) (hk : validKey k = true) (hs : s ≠ [])
    (hstr : trim s = s) :
    parseLines ((k ++ ':' :: ' ' :: s) :: ls) acc cur =
      parseLines ls (objSet acc k (FmValue.vstr s)) none := by
  have hk2 := hk
  simp only [validKey, Bool.and_eq_true] at hk2
  obtain ⟨⟨⟨⟨hne, htr⟩, hcol⟩, _⟩, _⟩ := hk2
  have harr := matchArrayItem_kv_line k (' ' :: s) hk
  have hkv2 : matchKV (k ++ ':' :: ' ' :: s) = some (k, s) := by
    rw [matchKV_line k (' ' :: s) (by simpa using hne) hcol]
    rw [trim_eq_of_trimmedB k htr, trim_cons_ws ' ' s (by decide), hstr]
  simp only [parseLines]
  rw [if_neg (trim_kv_line_ne_nil k (' ' :: s))]
  simp only [harr, hkv2]
  rw [if_neg hs]

theorem parseLines_arrStart_step (k : Str) (ls : List Str) (acc : Frontmatter)
    (cur : Option Str) (hk : validKey k = true) :
    parseLines ((k ++ [':']) :: ls) acc cur =
      parseLines ls (objSet acc k (FmValue.varr [])) (some k) := by
  have hk2 := hk
  simp only [validKey, Bool.and_eq_true] at hk2
  obtain ⟨⟨⟨⟨hne, htr⟩, hcol⟩, _⟩, _⟩ := hk2
  have harr := matchArrayItem_kv_line k [] hk
  have hkv2 : matchKV (k ++ [':']) = some (k, []) := by
    rw [matchKV_line k [] (by simpa using hne) hcol]
    rw [trim_eq_of_trimmedB k htr]
    rfl
  simp only [parseLines]
  rw [if_neg (trim_kv_line_ne_nil k [])]
  simp only [harr, hkv2]
  simp

theorem keysNodup_cons_not_mem (k : Str) (v : FmValue) (fm : Frontmatter)
    (h : keysNodup ((k, v) :: fm) = true) : ∀ p ∈ fm, ¬ p.1 = k := by
  simp only [keysNodup, Bool.and_eq_true, Bool.not_eq_true', List.any_eq_false] at h
  intro p hp
  have := h.1 p hp
  simpa using this

theorem keysNodup_cons_tail (k : Str) (v : FmValue) (fm : Frontmatter)
    (h : keysNodup ((k, v) :: fm) = true) : keysNodup fm = true := by
  simp only [keysNodup, Bool.and_eq_true] at h
  exact h.2

theorem parseLines_fieldLines (fm : Frontmatter) (acc : Frontmatter) (cur : Option Str)
    (hv : fm.all (fun p => validKey p.1 && validValue p.2) = true)
    (hnd : keysNodup fm = true)
    (hdisj : ∀ p ∈ fm, ∀ q ∈ acc, ¬ q.1 = p.1) :
    parseLines (fieldLines fm) acc cur = acc ++ normFm fm := by
  induction fm generalizing acc cur with
  | nil => simp [fieldLines, normFm, parseLines]
  | cons hd fm ih =>
    obtain ⟨k, v⟩ := hd
    simp only [List.all_cons, Bool.and_eq_true] at hv
    obtain ⟨⟨hkk, hvv⟩, hrest⟩ := hv
    have hacck : ∀ q ∈ acc, ¬ q.1 = k := fun q hq => hdisj (k, v) (by simp) q hq
    have hdisj2 : ∀ (w : FmValue), ∀ p ∈ fm, ∀ q ∈ acc ++ [(k, w)], ¬ q.1 = p.1 := by
      intro w p hp q hq
      rcases List.mem_append.mp hq with h | h
      · exact hdisj p (by simp [hp]) q h
      · have hq2 : q = (k, w) := by simpa using h
        subst hq2
        intro hk
        exact keysNodup_cons_not_mem k v fm hnd p hp hk.symm
    have hndt := keysNodup_cons_tail k v fm hnd
    cases v with
    | vnull =>
      have step := parseLines_kv_step k (("null").toList) (fieldLines fm) acc cur hkk
        (by decide) (by decide)
      have hfl : fieldLines ((k, FmValue.vnull) :: fm) =
          (k ++ ':' :: ' ' :: ("null").toList) :: fieldLines fm := by
        simp [fieldLines, serializeValueLines]
      rw [hfl, step, objSet_append acc k _ hacck]
      rw [ih _ none hrest hndt (hdisj2 (FmValue.vstr ("null").toList))]
      simp [normFm, normVal]
    | vstr s =>
      simp only [validValue, Bool.and_eq_true, Bool.not_eq_true'] at hvv
      obtain ⟨⟨hse, hstr⟩, _⟩ := hvv
      have hs : s ≠ [] := by
        intro h
        subst h
        simp at hse
      have step := parseLines_kv_step k s (fieldLines fm) acc cur hkk hs
        (trim_eq_of_trimmedB s hstr)
      have hfl : fieldLines ((k, FmValue.vstr s) :: fm) =
          (k ++ ':' :: ' ' :: s) :: fieldLines fm := by
        simp [fieldLines, serializeValueLines]
      rw [hfl, step, objSet_append acc k _ hacck]
      rw [ih _ none hrest hndt (hdisj2 (FmValue.vstr s))]
      simp [normFm, normVal]
    | varr items =>
      simp only [validValue] at hvv
      have hfl : fieldLines ((k, FmValue.varr items) :: fm) =
          (k ++ [':']) :: (items.map itemLine ++ fieldLines fm) := by
        simp [fieldLines, serializeValueLines]
      rw [hfl, parseLines_arrStart_step k _ acc cur hkk]
      rw [objSet_append acc k _ hacck]
      rw [parseLines_itemLines items (fieldLines fm) _ k hvv]
      rw [foldl_pushItem items acc k [] hacck]
      simp only [List.nil_append]
      rw [ih _ (some k) hrest hndt (hdisj2 (FmValue.varr items))]
      simp [normFm, normVal]

/-! ## Properties of the serialized lines -/

theorem fieldLines_mem (fm : Frontmatter) (l : Str) (h : l ∈ fieldLines fm) :
    ∃ p ∈ fm, l ∈ serializeValueLines p.1 p.2 := by
  simp only [fieldLines, List.mem_flatten, List.mem_map] at h
  obtain ⟨ls, ⟨p, hp, rfl⟩, hl⟩ := h
  exact ⟨p, hp, hl⟩

theorem fieldLines_noNl (fm : Frontmatter)
    (hv : fm.all (fun p => validKey p.1 && validValue p.2) = true) :
    ∀ l ∈ fieldLines fm, noNl l = true := by
  intro l hl
  obtain ⟨p, hp, hmem⟩ := fieldLines_mem fm l hl
  have hpv := List.all_eq_true.mp hv p hp
  simp only [Bool.and_eq_true] at hpv
  obtain ⟨hk, hval⟩ := hpv
  have hknl : noNl p.1 = true := by
    simp only [validKey, Bool.and_eq_true] at hk
    exact hk.1.2
  cases hv2 : p.2 with
  | vnull =>
    rw [hv2] at hmem
    simp only [serializeValueLines, List.mem_singleton] at hmem
    subst hmem
    simp only [noNl, List.any_append, Bool.not_eq_true', Bool.or_eq_false_iff]
    constructor
    · simpa [noNl] using hknl
    · decide
  | vstr s =>
    rw [hv2] at hmem
    rw [hv2] at hval
    simp only [validValue, Bool.and_eq_true] at hval
    simp only [serializeValueLines, List.mem_singleton] at hmem
    subst hmem
    simp only [noNl, List.any_append, List.any_cons, Bool.not_eq_true',
      Bool.or_eq_false_iff]
    refine ⟨by simpa [noNl] using hknl, by decide, by decide, ?_⟩
    simpa [noNl] using hval.2
  | varr items =>
    rw [hv2] at hmem
    rw [hv2] at hval
    simp only [validValue] at hval
    simp only [serializeValueLines, List.mem_cons, List.mem_map] at hmem
    rcases hmem with rfl | ⟨it, hit, rfl⟩
    · simp only [noNl, List.any_append, List.any_cons, Bool.not_eq_true',
        Bool.or_eq_false_iff]
      refine ⟨by simpa [noNl] using hknl, by decide, by decide⟩
    · have hitv := List.all_eq_true.mp hval it hit
      simp only [validItem, Bool.and_eq_true] at hitv
      simp only [itemLine, noNl, List.any_cons, Bool.not_eq_true', Bool.or_eq_false_iff]
      refine ⟨by decide, by decide, by decide, by decide, ?_⟩
      simpa [noNl] using hitv.2

theorem fieldLines_ne_dashes (fm : Frontmatter) :
    ∀ l ∈ fieldLines fm, ¬ l = ("---").toList := by
  intro l hl heq
  obtain ⟨p, hp, hmem⟩ := fieldLines_mem fm l hl
  cases hv2 : p.2 with
  | vnull =>
    rw [hv2] at hmem
    simp only [serializeValueLines, List.mem_singleton] at hmem
    subst hmem
    have : ':' ∈ ("---").toList := by
      rw [← heq]; simp
    simp at this
  | vstr s =>
    rw [hv2] at hmem
    simp only [serializeValueLines, List.mem_singleton] at hmem
    subst hmem
    have : ':' ∈ ("---").toList := by
      rw [← heq]; simp
    simp at this
  | varr items =>
    rw [hv2] at hmem
    simp only [serializeValueLines, List.mem_cons, List.mem_map] at hmem
    rcases hmem with rfl | ⟨it, _, rfl⟩
    · have : ':' ∈ ("---").toList := by
        rw [← heq]; simp
      simp at this
    · have : (itemLine it).head? = some ' ' := rfl
      rw [heq] at this
      simp at this

theorem findCloser0_front (front rest : List Str)
    (h : ∀ l ∈ front, ¬ l = ("---").toList) (hr : rest ≠ []) :
    findCloser0 (front ++ ("---").toList :: rest) = some (front, rest) := by
  induction front with
  | nil =>
    simp [findCloser0, hr]
  | cons l ls ih =>
    simp only [List.cons_append, findCloser0]
    rw [if_neg (fun hcon =>
      (by simpa using h l (by simp) : ¬ l = ['-', '-', '-']) (by simpa using hcon.1))]
    simp only [List.append_eq]
    rw [ih (fun x hx => h x (by simp [hx]))]

theorem findCloser_front (front rest : List Str) (hf : front ≠ [])
    (h : ∀ l ∈ front, ¬ l = ("---").toList) (hr : rest ≠ []) :
    findCloser (front ++ ("---").toList :: rest) = some (front, rest) := by
  cases front with
  | nil => exact absurd rfl hf
  | cons f0 ftail =>
    simp only [List.cons_append, findCloser]
    rw [findCloser0_front ftail rest (fun x hx => h x (by simp [hx])) hr]

/-- Reparsing a serialized document: every field comes back with `normVal`
applied to its value (null becomes the string `null`), the body verbatim. -/
theorem parseFrontmatter_serialize (fm : Frontmatter) (body : Str)
    (hfm : validFm fm = true) (hb : trimmedB body = true) :
    parseFrontmatter (serializeFrontmatter fm body) =
      { frontmatter := normFm fm, body := body } := by
  have hfm2 := hfm
  simp only [validFm, Bool.and_eq_true] at hfm2
  obtain ⟨⟨hne, hall⟩, hnd⟩ := hfm2
  have hfnil : fieldLines fm ≠ [] := by
    cases fm with
    | nil => simp at hne
    | cons p fm2 =>
      cases hv2 : p.2 with
      | vnull => simp [fieldLines, serializeValueLines, hv2]
      | vstr s => simp [fieldLines, serializeValueLines, hv2]
      | varr items => simp [fieldLines, serializeValueLines, hv2]
  have hxs : ∀ x ∈ ("---").toList :: (fieldLines fm ++ [("---").toList, ([] : Str)]),
      noNl x = true := by
    intro x hx
    rcases List.mem_cons.mp hx with rfl | hx
    · decide
    · rcases List.mem_append.mp hx with hx | hx
      · exact fieldLines_noNl fm hall x hx
      · rcases List.mem_cons.mp hx with rfl | hx
        · decide
        · rcases List.mem_cons.mp hx with rfl | hx
          · decide
          · simp at hx
  have hassoc : ("---").toList :: (fieldLines fm ++ [("---").toList, [], body]) =
      (("---").toList :: (fieldLines fm ++ [("---").toList, ([] : Str)])) ++ [body] := by
    simp
  have hsplit : splitOnNl (serializeFrontmatter fm body) =
      ("---").toList :: ((fieldLines fm ++ [("---").toList, ([] : Str)]) ++ splitOnNl body) := by
    rw [serializeFrontmatter, hassoc, splitOnNl_joinNl_append _ body hxs]
    simp
  have hrest : fieldLines fm ++ [("---").toList, ([] : Str)] ++ splitOnNl body =
      fieldLines fm ++ ("---").toList :: (([] : Str) :: splitOnNl body) := by
    simp
  have hfc : findCloser (fieldLines fm ++ ("---").toList :: (([] : Str) :: splitOnNl body)) =
      some (fieldLines fm, ([] : Str) :: splitOnNl body) :=
    findCloser_front _ _ hfnil (fieldLines_ne_dashes fm) (by simp)
  have h1 : parseLines (fieldLines fm) [] none = normFm fm := by
    rw [parseLines_fieldLines fm [] none hall hnd (by simp)]
    rfl
  have h2 : trim (joinNl (([] : Str) :: splitOnNl body)) = body := by
    rw [joinNl_cons _ _ (splitOnNl_ne_nil body), joinNl_splitOnNl]
    simp only [List.nil_append]
    rw [trim_cons_ws '\n' body (by decide)]
    exact trim_eq_of_trimmedB body hb
  simp only [parseFrontmatter, hsplit, hrest, hfc, h1, h2]
  simp

/-! ## Filesystem lemmas -/

theorem find?_overwrite (files : List (Str × Except Unit Str)) (p : Str) (c : Str)
    (h : files.any (fun e => e.1 = p) = true) :
    (files.map (fun e => if e.1 = p then (e.1, Except.ok c) else e)).find?
        (fun e => e.1 = p) = some (p, Except.ok c) := by
  induction files with
  | nil => simp at h
  | cons e es ih =>
    simp only [List.map_cons]
    by_cases he : e.1 = p
    · rw [if_pos he]
      rw [List.find?_cons_of_pos _ (by simpa using he)]
      rw [he]
    · rw [if_neg he]
      rw [List.find?_cons_of_neg _ (by simpa using he)]
      simp only [List.any_cons, Bool.or_eq_true] at h
      rcases h with h | h
      · exact absurd (by simpa using h) he
      · exact ih h

theorem find?_append_new (files : List (Str × Except Unit Str)) (p : Str) (c : Str)
    (h : files.any (fun e => e.1 = p) = false) :
    ((files ++ [(p, Except.ok c)]).find? (fun e => e.1 = p)) = some (p, Except.ok c) := by
  induction files with
  | nil =>
    simp only [List.nil_append]
    rw [List.find?_cons_of_pos _ (by simp)]
  | cons e es ih =>
    simp only [List.any_cons, Bool.or_eq_false_iff] at h
    simp only [List.cons_append]
    rw [List.find?_cons_of_neg _ (by simpa using h.1)]
    exact ih h.2

theorem fsLookup_fsWrite_self (fs : FS) (p : Str) (c : Str) :
    fsLookup (fsWrite fs p c) p = some (Except.ok c) := by
  unfold fsLookup fsWrite
  by_cases h : fs.files.any (fun e => e.1 = p) = true
  · rw [if_pos h]
    simp only []
    rw [find?_overwrite fs.files p c h]
    rfl
  · rw [if_neg h]
    simp only []
    rw [find?_append_new fs.files p c (Bool.eq_false_iff.mpr h)]
    rfl

theorem find?_overwrite_ne (files : List (Str × Except Unit Str)) (p : Str) (c : Str)
    (q : Str) (hq : ¬ q = p) :
    (files.map (fun e => if e.1 = p then (e.1, Except.ok c) else e)).find?
        (fun e => e.1 = q) = files.find? (fun e => e.1 = q) := by
  induction files with
  | nil => simp
  | cons e es ih =>
    simp only [List.map_cons]
    by_cases heq : e.1 = q
    · have hep : ¬ e.1 = p := fun h2 => hq (heq.symm.trans h2)
      rw [if_neg hep]
      rw [List.find?_cons_of_pos _ (by simpa using heq)]
      rw [List.find?_cons_of_pos _ (by simpa using heq)]
    · have h1 : ¬ (if e.1 = p then (e.1, Except.ok c) else e).1 = q := by
        by_cases hep : e.1 = p
        · rw [if_pos hep]; exact heq
        · rw [if_neg hep]; exact heq
      rw [List.find?_cons_of_neg _ (by simpa using h1)]
      rw [List.find?_cons_of_neg _ (by simpa using heq)]
      exact ih

theorem fsLookup_fsWrite_ne (fs : FS) (p : Str) (c : Str) (q : Str) (hq : ¬ q = p) :
    fsLookup (fsWrite fs p c) q = fsLookup fs q := by
  unfold fsLookup fsWrite
  by_cases h : fs.files.any (fun e => e.1 = p) = true
  · rw [if_pos h]
    simp only []
    rw [find?_overwrite_ne fs.files p c q hq]
  · rw [if_neg h]
    simp only []
    have : (fs.files ++ [(p, Except.ok c)]).find? (fun e => e.1 = q) =
        fs.files.find? (fun e => e.1 = q) := by
      induction fs.files with
      | nil =>
        simp only [List.nil_append]
        rw [List.find?_cons_of_neg _ (by simpa using fun hh => hq hh.symm)]
      | cons e es ih2 =>
        simp only [List.cons_append]
        by_cases heq : e.1 = q
        · rw [List.find?_cons_of_pos _ (by simpa using heq),
            List.find?_cons_of_pos _ (by simpa using heq)]
        · rw [List.find?_cons_of_neg _ (by simpa using heq),
            List.find?_cons_of_neg _ (by simpa using heq)]
          exact ih2
    rw [this]

theorem fsExists_fsWrite_self (fs : FS) (p : Str) (c : Str) :
    fsExists (fsWrite fs p c) p = true := by
  simp [fsExists, fsLookup_fsWrite_self]

theorem readNote_createNote (fs : FS) (path : Str) (fm : Frontmatter) (body : Str)
    (hfm : validFm fm = true) (hb : trimmedB body = true) :
    readNote (createNote fs path fm body).1 path =
      Except.ok { path := path, frontmatter := normFm fm, body := body } := by
  have hl := fsLookup_fsWrite_self fs path (serializeFrontmatter fm body)
  have hrt := parseFrontmatter_serialize fm body hfm hb
  simp only [createNote, readNote, fsExists, hl, Option.isSome_some, if_true, hrt]

/-! ## Claim C3: the create/read round trip -/

/-- C3 (counterexample): the round-trip claim fails for null-valued fields.
The pair below is valid (one required-style field holding `null`, a plain
body), yet `read(create(path, frontmatter, body))` does not return the
frontmatter unchanged: the serializer writes the text `null` and the parser
reads it back as the string `null`, not as the null value. -/
theorem C3_counterexample :
    validFm [(("session_id").toList, FmValue.vnull)] = true ∧
    readNote (createNote fsEmpty ("a.md").toList
        [(("session_id").toList, FmValue.vnull)] ("body").toList).1 ("a.md").toList ≠
      Except.ok { path := ("a.md").toList
                  frontmatter := [(("session_id").toList, FmValue.vnull)]
                  body := ("body").toList } := by
  decide

/-- C3 (amended): for every valid (frontmatter, body) pair,
`read(create(path, frontmatter, body))` returns the body unchanged and every
field in order, with string and array values unchanged (array element order
preserved); a null-valued field alone comes back as the literal string
`null` (`normVal`). -/
theorem C3_roundtrip (fs : FS) (path : Str) (fm : Frontmatter) (body : Str)
    (hfm : validFm fm = true) (hb : trimmedB body = true) :
    readNote (createNote fs path fm body).1 path =
      Except.ok { path := path, frontmatter := normFm fm, body := body } :=
  readNote_createNote fs path fm body hfm hb

/-- C3 witness: the amended round trip evaluated at a concrete note. -/
theorem C3_roundtrip_witness :
    readNote (createNote fsEmpty ("notes/h.md").toList
        [(("id").toList, FmValue.vstr ("u-1").toList),
         (("tags").toList, FmValue.varr [("handoff").toList, ("test").toList]),
         (("phase_id").toList, FmValue.vnull)] ("# Title\n\ntext").toList).1
      ("notes/h.md").toList =
    Except.ok { path := ("notes/h.md").toList
                frontmatter :=
                  [(("id").toList, FmValue.vstr ("u-1").toList),
                   (("tags").toList, FmValue.varr [("handoff").toList, ("test").toList]),
                   (("phase_id").toList, FmValue.vstr ("null").toList)]
                body := ("# Title\n\ntext").toList } :=
  C3_roundtrip fsEmpty ("notes/h.md").toList _ _ (by decide) (by decide)

/-! ## Claim C6: create and required-field validation -/

/-- C6 (counterexample): `createNote` performs no frontmatter validation.
With every required field missing (`validateFrontmatter` reports invalid),
`create` still succeeds: the file is written with the serialized content and
the note is returned; no `ValidationError` is raised. -/
theorem C6_counterexample :
    (validateFrontmatter []).valid = false ∧
    fsLookup (createNote fsEmpty ("a.md").toList [] ("b").toList).1 ("a.md").toList =
      some (Except.ok (serializeFrontmatter [] ("b").toList)) ∧
    (createNote fsEmpty ("a.md").toList [] ("b").toList).2 =
      { path := ("a.md").toList, frontmatter := [], body := ("b").toList } := by
  refine ⟨by decide, ?_, by decide⟩
  exact fsLookup_fsWrite_self fsEmpty ("a.md").toList _

/-- C6 (amended): `create` never validates required frontmatter fields: for
every frontmatter (even one with required fields absent) it writes the
serialized frontmatter+body as one file and returns the note unchanged.
Required-field validation exists separately as `validateFrontmatter`, whose
verdict is positive exactly when all nine required fields are present;
it is consulted only by the doctor health checks, never by `create`. -/
theorem C6_create_unvalidated (fs : FS) (path : Str) (fm : Frontmatter) (body : Str) :
    fsLookup (createNote fs path fm body).1 path =
      some (Except.ok (serializeFrontmatter fm body)) ∧
    (createNote fs path fm body).2 = { path := path, frontmatter := fm, body := body } ∧
    ((validateFrontmatter fm).valid = true ↔
      ∀ f ∈ requiredFields, fm.any (fun p => p.1 = f) = true) := by
  refine ⟨fsLookup_fsWrite_self fs path _, rfl, ?_⟩
  unfold validateFrontmatter
  simp only []
  rw [List.isEmpty_iff]
  constructor
  · intro h f hf
    by_contra hc
    have hmem : f ∈ requiredFields.filter (fun g => !fm.any (fun p => p.1 = g)) :=
      List.mem_filter.mpr ⟨hf, by simp [Bool.eq_false_iff.mpr hc]⟩
    rw [h] at hmem
    simp at hmem
  · intro h
    rw [List.eq_nil_iff_forall_not_mem]
    intro f hfmem
    rcases List.mem_filter.mp hfmem with ⟨hf1, hf2⟩
    rw [h f hf1] at hf2
    simp at hf2

/-! ## Lemmas about the filename convention -/

theorem isDigit_digitChar (a : Nat) : isDigit (digitChar a) = true := by
  unfold digitChar
  split <;> decide

theorem digitChar_ne_dash (a : Nat) : (digitChar a != '-') = true := by
  unfold digitChar
  split <;> decide

theorem digitChar_ne_colon (a : Nat) : (digitChar a != ':') = true := by
  unfold digitChar
  split <;> decide

theorem digitVal_digitChar (a : Nat) (h : a < 10) : digitVal (digitChar a) = a := by
  interval_cases a <;> decide

theorem generateFilename_eq (ty sc slug : Str) (d : DateTime) :
    generateFilename ty sc slug d =
      timestampOf d ++ '-' :: '-' :: (ty ++ '-' :: '-' :: (sc ++ '-' :: '-' ::
        (sanitizeSlug slug ++ (".md").toList))) := by
  simp only [generateFilename, toISOString, timestampOf, pad4, pad3, pad2,
    List.cons_append, List.nil_append]
  simp [List.filter_cons, digitChar_ne_dash, digitChar_ne_colon]

theorem noNl_iff (s : Str) : noNl s = true ↔ '\n' ∉ s := by
  unfold noNl
  induction s with
  | nil => simp
  | cons c cs ih =>
    by_cases hc : c = '\n'
    · subst hc
      simp
    · simp only [List.any_cons, Bool.not_or, Bool.and_eq_true, Bool.not_eq_true',
        decide_eq_false_iff_not, List.mem_cons] at *
      constructor
      · intro hh
        intro hor
        rcases hor with h1 | h1
        · exact hc h1.symm
        · exact (ih.mp hh.2) h1
      · intro hh
        exact ⟨hc, ih.mpr (fun hm => hh (Or.inr hm))⟩

theorem mem_collapseAux (s : Str) (b : Bool) (c : Char) (hc : c ∈ collapseAux s b) :
    isAlnumLower c = true ∨ c = '-' := by
  induction s generalizing b with
  | nil => simp [collapseAux] at hc
  | cons c2 rest ih =>
    by_cases hal : isAlnumLower c2 = true
    · rw [collapseAux, if_pos hal] at hc
      rcases List.mem_cons.mp hc with rfl | hc2
      · exact Or.inl hal
      · exact ih false hc2
    · rw [collapseAux, if_neg hal] at hc
      by_cases hb : b = true
      · rw [hb, if_pos rfl] at hc
        exact ih true hc
      · rw [if_neg hb] at hc
        rcases List.mem_cons.mp hc with rfl | hc2
        · exact Or.inr rfl
        · exact ih true hc2

theorem mem_collapseRuns (s : Str) (c : Char) (hc : c ∈ collapseRuns s) :
    isAlnumLower c = true ∨ c = '-' :=
  mem_collapseAux s false c hc

theorem mem_dropLeadDash (s : Str) (c : Char) (hc : c ∈ dropLeadDash s) : c ∈ s := by
  unfold dropLeadDash at hc
  split at hc
  · simp [hc]
  · exact hc

theorem mem_dropTrailDash (s : Str) (c : Char) (hc : c ∈ dropTrailDash s) : c ∈ s := by
  unfold dropTrailDash at hc
  split at hc
  · exact (List.dropLast_sublist s).mem hc
  · exact hc

theorem sanitizeSlug_noNl (slug : Str) : noNl (sanitizeSlug slug) = true := by
  rw [noNl_iff]
  intro hmem
  have h1 := mem_dropTrailDash _ _ hmem
  have h2 := mem_dropLeadDash _ _ h1
  rcases mem_collapseRuns _ _ h2 with h | h
  · simp [isAlnumLower] at h
  · exact absurd h (by decide)


theorem splitCands0_cons (c : Char) (rest : Str) :
    splitCands0 (c :: rest) =
      if c = '-' ∧ rest.head? = some '-' then
        ([], rest.tail) :: (splitCands0 rest).map (fun pr => (c :: pr.1, pr.2))
      else (splitCands0 rest).map (fun pr => (c :: pr.1, pr.2)) := rfl

theorem splitCands0_first (t r : Str) (h1 : hasDD t = false)
    (h2 : ¬ t.getLast? = some '-') :
    (splitCands0 (t ++ '-' :: '-' :: r)).head? = some (t, r) := by
  induction t with
  | nil =>
    rw [List.nil_append, splitCands0_cons, if_pos ⟨rfl, rfl⟩]
    rfl
  | cons c t' ih =>
    cases ht' : t' with
    | nil =>
      subst ht'
      have hc : ¬ c = '-' := by simpa using h2
      rw [List.cons_append, List.nil_append, splitCands0_cons,
        if_neg (fun hcon => hc hcon.1), splitCands0_cons, if_pos ⟨rfl, rfl⟩]
      rfl
    | cons c2 t'' =>
      subst ht'
      have hnd : ¬ (c = '-' ∧ c2 = '-') := by
        intro hcon
        obtain ⟨hc1, hc2⟩ := hcon
        subst hc1
        subst hc2
        simp [hasDD] at h1
      have h1' : hasDD (c2 :: t'') = false := by
        simp only [hasDD, Bool.or_eq_false_iff] at h1
        exact h1.2
      have h2' : ¬ (c2 :: t'').getLast? = some '-' := by
        rwa [List.getLast?_cons_cons] at h2
      have ih2 := ih h1' h2'
      have hcond : ¬ (c = '-' ∧ ((c2 :: t'') ++ '-' :: '-' :: r).head? = some '-') := by
        intro hcon
        apply hnd
        refine ⟨hcon.1, ?_⟩
        have h3 := hcon.2
        rw [List.cons_append] at h3
        simpa using h3
      rw [List.cons_append, splitCands0_cons, if_neg hcond, List.head?_map]
      rw [List.cons_append] at ih2 ⊢
      rw [ih2]
      rfl

theorem splitCands_first (t r : Str) (hne : ¬ t = []) (h1 : hasDD t = false)
    (h2 : ¬ t.getLast? = some '-') :
    ∃ cs, splitCands (t ++ '-' :: '-' :: r) = (t, r) :: cs := by
  cases t with
  | nil => exact absurd rfl hne
  | cons c t' =>
    have h1' : hasDD t' = false := by
      cases t' with
      | nil => rfl
      | cons c2 t'' =>
        simp only [hasDD, Bool.or_eq_false_iff] at h1
        exact h1.2
    have h2' : ¬ t'.getLast? = some '-' := by
      cases t' with
      | nil => simp
      | cons c2 t'' => rwa [List.getLast?_cons_cons] at h2
    have hh := splitCands0_first t' r h1' h2'
    rw [List.cons_append]
    show ∃ cs, (splitCands0 (t' ++ '-' :: '-' :: r)).map (fun pr => (c :: pr.1, pr.2)) =
      (c :: t', r) :: cs
    cases hs : splitCands0 (t' ++ '-' :: '-' :: r) with
    | nil =>
      rw [hs] at hh
      simp at hh
    | cons a l =>
      rw [hs] at hh
      have ha : a = (t', r) := by simpa using hh
      subst ha
      exact ⟨l.map (fun pr => (c :: pr.1, pr.2)), by rw [List.map_cons]⟩

theorem length_pos_of_ne_nil (n : Str) (h : ¬ n = []) : 1 ≤ n.length := by
  cases n with
  | nil => exact absurd rfl h
  | cons a l => simp

theorem digitVal_digitChar_mod (a : Nat) :
    digitVal (digitChar (a % 10)) = a % 10 :=
  digitVal_digitChar _ (Nat.mod_lt _ (by omega))

/-- C5: for every well-formed input (type and scope nonempty, free of `--`,
not ending in a hyphen, newline-free; a slug whose normalization is
nonempty; a date within `toISOString` range), `parseFilename` applied to
`generateFilename` does not return the no-match result and recovers the
type, the normalized slug (lower-cased, runs of non-alphanumerics collapsed
to single hyphens, leading/trailing hyphens stripped) and the date truncated
to the second. -/
theorem C5_filename_roundtrip (ty sc slug : Str) (d : DateTime)
    (hty : wfPart ty = true) (hsc : wfPart sc = true)
    (hslug : ¬ sanitizeSlug slug = []) (hd : wfDateTime d = true) :
    parseFilename (generateFilename ty sc slug d) =
      some { timestamp := timestampOf d, type := ty, scope := sc
             slug := sanitizeSlug slug, date := truncSec d } := by
  obtain ⟨y, mo, dd, hh, mi, ss, ms⟩ := d
  simp only [wfPart, Bool.and_eq_true, Bool.not_eq_true', decide_eq_false_iff_not] at hty hsc
  obtain ⟨⟨⟨htyne, htydd⟩, htyld⟩, htynl⟩ := hty
  obtain ⟨⟨⟨hscne, hscdd⟩, hscld⟩, hscnl⟩ := hsc
  simp only [wfDateTime, Bool.and_eq_true, decide_eq_true_eq] at hd
  rw [generateFilename_eq]
  obtain ⟨cs1, hcs1⟩ := splitCands_first ty
    (sc ++ '-' :: '-' :: (sanitizeSlug slug ++ (".md").toList))
    (by simpa [List.isEmpty_iff] using htyne) htydd (by simpa using htyld)
  obtain ⟨cs2, hcs2⟩ := splitCands_first sc (sanitizeSlug slug ++ (".md").toList)
    (by simpa [List.isEmpty_iff] using hscne) hscdd (by simpa using hscld)
  simp only [timestampOf, pad4, pad2, List.cons_append, List.nil_append,
    List.append_assoc]
  simp only [parseFilename, isDigit_digitChar, Bool.and_self, Bool.true_and,
    decide_True, if_true]
  rw [hcs1, List.findSome?_cons]
  simp only [htynl, if_true]
  rw [hcs2, List.findSome?_cons]
  simp only [hscnl, if_true]
  have hlen : (sanitizeSlug slug ++ (".md").toList).length - 3 = (sanitizeSlug slug).length := by
    simp [List.length_append]
  have hlen4 : (sanitizeSlug slug ++ (".md").toList).length >= 4 := by
    have hp := length_pos_of_ne_nil _ hslug
    have h3 : ((".md").toList).length = 3 := rfl
    simp only [List.length_append, h3]
    omega
  have hcond : (sanitizeSlug slug ++ (".md").toList).length ≥ 4 ∧
      (sanitizeSlug slug ++ (".md").toList).drop
        ((sanitizeSlug slug ++ (".md").toList).length - 3) = (".md").toList ∧
      noNl ((sanitizeSlug slug ++ (".md").toList).take
        ((sanitizeSlug slug ++ (".md").toList).length - 3)) = true := by
    refine ⟨hlen4, ?_, ?_⟩
    · rw [hlen, List.drop_left]
    · rw [hlen, List.take_left]
      exact sanitizeSlug_noNl slug
  rw [if_pos hcond, hlen, List.take_left]
  have hts : parseTsDate
      [digitChar (y / 1000 % 10), digitChar (y / 100 % 10), digitChar (y / 10 % 10),
       digitChar (y % 10), digitChar (mo / 10 % 10), digitChar (mo % 10),
       digitChar (dd / 10 % 10), digitChar (dd % 10), '-', digitChar (hh / 10 % 10),
       digitChar (hh % 10), digitChar (mi / 10 % 10), digitChar (mi % 10),
       digitChar (ss / 10 % 10), digitChar (ss % 10), 'Z'] =
      truncSec { year := y, month := mo, day := dd, hour := hh,
                 minute := mi, second := ss, ms := ms } := by
    simp only [parseTsDate, digitVal_digitChar_mod, truncSec, DateTime.mk.injEq,
      and_true]
    omega
  rw [hts]

/-- C5 witness: the round trip at the repository test vector. -/
theorem C5_filename_roundtrip_witness :
    parseFilename (generateFilename ("handoff").toList ("session-123").toList
        ("Test!@# Handoff$%^ Complete!!!").toList
        { year := 2024, month := 1, day := 15, hour := 14, minute := 30, second := 0, ms := 123 }) =
      some { timestamp := timestampOf { year := 2024, month := 1, day := 15, hour := 14,
                                        minute := 30, second := 0, ms := 123 }
             type := ("handoff").toList
             scope := ("session-123").toList
             slug := sanitizeSlug ("Test!@# Handoff$%^ Complete!!!").toList
             date := truncSec { year := 2024, month := 1, day := 15, hour := 14,
                                minute := 30, second := 0, ms := 123 } } :=
  C5_filename_roundtrip ("handoff").toList ("session-123").toList
    ("Test!@# Handoff$%^ Complete!!!").toList _ (by decide) (by decide) (by decide) (by decide)

theorem staleMap_succ (env : Nat → LockAttempt) (i n : Nat) :
    (List.range (n + 1)).map (fun k => staleFlag (env (i + k))) =
      staleFlag (env i) :: (List.range n).map (fun k => staleFlag (env (i + 1 + k))) := by
  rw [List.range_succ_eq_map, List.map_cons, List.map_map]
  congr 1
  apply List.map_congr_left
  intro a _
  simp only [Function.comp_apply]
  have harith : i + Nat.succ a = i + 1 + a := by omega
  rw [harith]

theorem withLockGo_allExist (env : Nat → LockAttempt) (w : Nat)
    (hall : ∀ j, ∃ ok age, env j = LockAttempt.failExist ok age) :
    ∀ fuel i, withLockGo env w i (fuel + 1) =
      { outcome := .lockTimeout ("Tracker state is busy, try again").toList
        attempts := fuel + 1
        staleRemovals := (List.range fuel).map (fun k => staleFlag (env (i + k)))
        waits := List.replicate fuel w
        fnRan := false } := by
  intro fuel
  induction fuel with
  | zero =>
    intro i
    obtain ⟨ok, age, hi⟩ := hall i
    simp only [withLockGo, hi]
    rfl
  | succ f ih =>
    intro i
    obtain ⟨ok, age, hi⟩ := hall i
    have ih2 := ih (i + 1)
    have hsf : staleFlag (env i) = (ok && decide (staleThresholdMs < age)) := by
      rw [hi]
      rfl
    have hmap := staleMap_succ env i f
    simp only [withLockGo, hi] at ih2 ⊢
    rw [if_neg (Nat.succ_ne_zero f)]
    rw [ih2]
    rw [hmap, hsf, List.replicate_succ]

theorem withLockGo_other (env : Nat → LockAttempt) (w : Nat) :
    ∀ k fuel i, k < fuel →
      (∀ j, j < k → ∃ ok age, env (i + j) = LockAttempt.failExist ok age) →
      env (i + k) = LockAttempt.failOther →
      withLockGo env w i fuel =
        { outcome := .ioError, attempts := k + 1
          staleRemovals := (List.range k).map (fun j => staleFlag (env (i + j)))
          waits := List.replicate k w, fnRan := false } := by
  intro k
  induction k with
  | zero =>
    intro fuel i hk hex ho
    have ho2 : env i = LockAttempt.failOther := by simpa using ho
    cases fuel with
    | zero => omega
    | succ f =>
      simp only [withLockGo, ho2]
      rfl
  | succ k ih =>
    intro fuel i hk hex ho
    obtain ⟨ok, age, h0⟩ := hex 0 (by omega)
    have h0' : env i = LockAttempt.failExist ok age := by simpa using h0
    cases fuel with
    | zero => omega
    | succ f =>
      have hf : ¬ f = 0 := by omega
      have hex2 : ∀ j, j < k → ∃ ok2 age2, env (i + 1 + j) = LockAttempt.failExist ok2 age2 := by
        intro j hj
        obtain ⟨ok2, age2, hh⟩ := hex (j + 1) (by omega)
        refine ⟨ok2, age2, ?_⟩
        have harith : i + 1 + j = i + (j + 1) := by omega
        rw [harith]
        exact hh
      have ho2 : env (i + 1 + k) = LockAttempt.failOther := by
        have harith : i + 1 + k = i + (k + 1) := by omega
        rw [harith]
        exact ho
      have ih2 := ih f (i + 1) (by omega) hex2 ho2
      have hsf : staleFlag (env i) = (ok && decide (staleThresholdMs < age)) := by
        rw [h0']
        rfl
      simp only [withLockGo, h0']
      rw [if_neg hf]
      rw [ih2]
      rw [staleMap_succ env i k, hsf, List.replicate_succ]

/-- C1: under the default policy (100 attempts, 20 ms fixed wait) a
`_withLock` run in which every open attempt fails with EEXIST makes exactly
100 acquisition attempts, sleeps 20 ms after each of the 99 non-final
failures, removes the stale marker before a retry exactly when `stat`
succeeded and the marker is over 30 seconds old, never runs the caller's
update, and ends by throwing the busy error; while a run whose attempt `k`
fails with any cause other than EEXIST (after `k` EEXIST failures)
propagates that error immediately after `k + 1` attempts, without running
the update. -/
theorem C1_lock_retry (env : Nat → LockAttempt) :
    ((∀ i, ∃ ok age, env i = LockAttempt.failExist ok age) →
      withLock env =
        { outcome := .lockTimeout ("Tracker state is busy, try again").toList
          attempts := 100
          staleRemovals := (List.range 99).map (fun k => staleFlag (env k))
          waits := List.replicate 99 20
          fnRan := false })
  ∧ (∀ k, k < 100 →
      (∀ j, j < k → ∃ ok age, env j = LockAttempt.failExist ok age) →
      env k = LockAttempt.failOther →
      withLock env =
        { outcome := .ioError, attempts := k + 1
          staleRemovals := (List.range k).map (fun j => staleFlag (env j))
          waits := List.replicate k 20, fnRan := false }) := by
  constructor
  · intro hall
    have h2 := withLockGo_allExist env 20 hall 99 0
    simp only [Nat.zero_add] at h2
    exact h2
  · intro k hk hex ho
    have h2 := withLockGo_other env 20 k 100 0 hk
      (fun j hj => by simpa using hex j hj) (by simpa using ho)
    simpa using h2

theorem C1_lock_retry_witness :
    withLock (fun _ => LockAttempt.failExist true 40000) =
      { outcome := .lockTimeout ("Tracker state is busy, try again").toList
        attempts := 100
        staleRemovals := (List.range 99).map
          (fun k => staleFlag ((fun _ => LockAttempt.failExist true 40000) k))
        waits := List.replicate 99 20
        fnRan := false } :=
  (C1_lock_retry (fun _ => LockAttempt.failExist true 40000)).1
    (fun _ => ⟨true, 40000, rfl⟩)

theorem oSpread_some_isSome (v : TVal) (b : Option TVal) :
    (oSpread (some v) b).isSome = true := by cases b <;> rfl

theorem getState_present (file : TrackerFile) (nowIso : Str) :
    allFieldsPresent (getState file nowIso) = true := by
  cases file with
  | absent => rfl
  | unreadable => rfl
  | invalidJson => rfl
  | jsonNonObject => rfl
  | jsonObject p =>
    simp [getState, spreadTracker, defaultState, allFieldsPresent, oSpread_some_isSome]

theorem spread_absorb_of_isSome (dv : TVal) (cf nf : Option TVal) (h : cf.isSome = true) :
    oSpread (oSpread (some dv) cf) nf = oSpread cf nf := by
  obtain ⟨cv, rfl⟩ := Option.isSome_iff_exists.mp h
  cases nf <;> rfl

theorem oSpread_isSome_left (cf nf : Option TVal) (h : cf.isSome = true) :
    (oSpread cf nf).isSome = true := by
  obtain ⟨v, rfl⟩ := Option.isSome_iff_exists.mp h
  cases nf <;> rfl

/-- C2: inside the critical section, `saveState` re-reads the on-disk state
as found at lock time, merges the caller's partial update over that freshly
read state field by field (the defaults layer is inert because the fresh
read is complete), stamps the fresh `updated_at`, and the written document
carries all six fields; the write event precedes the lock release in the
trace. -/
theorem C2_saveState_critical (diskAtLock : TrackerFile) (next : TrackerObj)
    (nowRead nowDef nowWrite : Str) :
    (saveStateEvents diskAtLock next nowRead nowDef nowWrite).2 =
      [TkEvent.lockAcquire, TkEvent.readState,
       TkEvent.writeState (saveStateEvents diskAtLock next nowRead nowDef nowWrite).1,
       TkEvent.lockRelease] ∧
    allFieldsPresent (saveStateEvents diskAtLock next nowRead nowDef nowWrite).1 = true ∧
    (saveStateEvents diskAtLock next nowRead nowDef nowWrite).1.updated_at =
      some (TVal.tstr nowWrite) ∧
    (saveStateEvents diskAtLock next nowRead nowDef nowWrite).1.version =
      oSpread (getState diskAtLock nowRead).version next.version ∧
    (saveStateEvents diskAtLock next nowRead nowDef nowWrite).1.active_phase_id =
      oSpread (getState diskAtLock nowRead).active_phase_id next.active_phase_id ∧
    (saveStateEvents diskAtLock next nowRead nowDef nowWrite).1.current_session_id =
      oSpread (getState diskAtLock nowRead).current_session_id next.current_session_id ∧
    (saveStateEvents diskAtLock next nowRead nowDef nowWrite).1.latest_handoff_path =
      oSpread (getState diskAtLock nowRead).latest_handoff_path next.latest_handoff_path ∧
    (saveStateEvents diskAtLock next nowRead nowDef nowWrite).1.latest_handoff_id =
      oSpread (getState diskAtLock nowRead).latest_handoff_id next.latest_handoff_id := by
  have hpres := getState_present diskAtLock nowRead
  simp only [allFieldsPresent, Bool.and_eq_true] at hpres
  obtain ⟨⟨⟨⟨⟨hv, hu⟩, ha⟩, hc⟩, hp⟩, hi⟩ := hpres
  have hfv : (saveStateEvents diskAtLock next nowRead nowDef nowWrite).1.version =
      oSpread (getState diskAtLock nowRead).version next.version :=
    spread_absorb_of_isSome _ _ _ hv
  have hfa : (saveStateEvents diskAtLock next nowRead nowDef nowWrite).1.active_phase_id =
      oSpread (getState diskAtLock nowRead).active_phase_id next.active_phase_id :=
    spread_absorb_of_isSome _ _ _ ha
  have hfc : (saveStateEvents diskAtLock next nowRead nowDef nowWrite).1.current_session_id =
      oSpread (getState diskAtLock nowRead).current_session_id next.current_session_id :=
    spread_absorb_of_isSome _ _ _ hc
  have hfp : (saveStateEvents diskAtLock next nowRead nowDef nowWrite).1.latest_handoff_path =
      oSpread (getState diskAtLock nowRead).latest_handoff_path next.latest_handoff_path :=
    spread_absorb_of_isSome _ _ _ hp
  have hfi : (saveStateEvents diskAtLock next nowRead nowDef nowWrite).1.latest_handoff_id =
      oSpread (getState diskAtLock nowRead).latest_handoff_id next.latest_handoff_id :=
    spread_absorb_of_isSome _ _ _ hi
  have hfu : (saveStateEvents diskAtLock next nowRead nowDef nowWrite).1.updated_at =
      some (TVal.tstr nowWrite) := rfl
  refine ⟨rfl, ?_, hfu, hfv, hfa, hfc, hfp, hfi⟩
  simp only [allFieldsPresent]
  rw [hfv, hfa, hfc, hfp, hfi, hfu]
  simp [oSpread_isSome_left _ _ hv, oSpread_isSome_left _ _ ha,
    oSpread_isSome_left _ _ hc, oSpread_isSome_left _ _ hp,
    oSpread_isSome_left _ _ hi]

/-- C9: for every possible content of the tracker state file (absent,
unreadable, invalid JSON, non-object JSON, or an object missing any subset
of fields), `getState` is total (the model has no error outcome) and
returns a state with all six schema fields present, preserving each field
present in the file and filling each absent field with its default
(`version` 1, fresh `updated_at`, null pointers). -/
theorem C9_getState_total (file : TrackerFile) (nowIso : Str) :
    allFieldsPresent (getState file nowIso) = true ∧
    ((∀ p, ¬ file = TrackerFile.jsonObject p) → getState file nowIso = defaultState nowIso) ∧
    (∀ p, file = TrackerFile.jsonObject p →
      (p.version = none → (getState file nowIso).version = some (TVal.tnum 1)) ∧
      (∀ v, p.version = some v → (getState file nowIso).version = some v) ∧
      (p.updated_at = none → (getState file nowIso).updated_at = some (TVal.tstr nowIso)) ∧
      (∀ v, p.updated_at = some v → (getState file nowIso).updated_at = some v) ∧
      (p.active_phase_id = none → (getState file nowIso).active_phase_id = some TVal.tnull) ∧
      (∀ v, p.active_phase_id = some v → (getState file nowIso).active_phase_id = some v) ∧
      (p.current_session_id = none → (getState file nowIso).current_session_id = some TVal.tnull) ∧
      (∀ v, p.current_session_id = some v → (getState file nowIso).current_session_id = some v) ∧
      (p.latest_handoff_path = none → (getState file nowIso).latest_handoff_path = some TVal.tnull) ∧
      (∀ v, p.latest_handoff_path = some v → (getState file nowIso).latest_handoff_path = some v) ∧
      (p.latest_handoff_id = none → (getState file nowIso).latest_handoff_id = some TVal.tnull) ∧
      (∀ v, p.latest_handoff_id = some v → (getState file nowIso).latest_handoff_id = some v)) := by
  refine ⟨getState_present file nowIso, ?_, ?_⟩
  · intro h
    cases file with
    | absent => rfl
    | unreadable => rfl
    | invalidJson => rfl
    | jsonNonObject => rfl
    | jsonObject p => exact absurd rfl (h p)
  · intro p hp
    subst hp
    refine ⟨?_, ?_, ?_, ?_, ?_, ?_, ?_, ?_, ?_, ?_, ?_, ?_⟩ <;>
      first
      | (intro h
         simp [getState, spreadTracker, defaultState, oSpread, h])
      | (intro v h
         simp [getState, spreadTracker, defaultState, oSpread, h])

theorem C9_getState_total_witness :
    (getState (TrackerFile.jsonObject
        { version := none, updated_at := none
          active_phase_id := some (TVal.tstr ("p-1").toList)
          current_session_id := none, latest_handoff_path := none
          latest_handoff_id := none }) (("2024-01-01T00:00:00.000Z").toList)).version =
      some (TVal.tnum 1) ∧
    (getState (TrackerFile.jsonObject
        { version := none, updated_at := none
          active_phase_id := some (TVal.tstr ("p-1").toList)
          current_session_id := none, latest_handoff_path := none
          latest_handoff_id := none }) (("2024-01-01T00:00:00.000Z").toList)).active_phase_id =
      some (TVal.tstr ("p-1").toList) := by
  have h := C9_getState_total (TrackerFile.jsonObject
      { version := none, updated_at := none
        active_phase_id := some (TVal.tstr ("p-1").toList)
        current_session_id := none, latest_handoff_path := none
        latest_handoff_id := none }) (("2024-01-01T00:00:00.000Z").toList)
  obtain ⟨-, -, h3⟩ := h
  have h4 := h3 _ rfl
  exact ⟨h4.1 rfl, (h4.2.2.2.2.2.1) _ rfl⟩

theorem pruneScanGo_spec (stats : Str → Option PruneStat) (deleteOk : Str → Bool)
    (dryRun : Bool) (cutoff : Int) :
    ∀ (paths : List Str) (acc : PruneResults),
      (pruneScanGo stats deleteOk dryRun cutoff paths acc).candidates =
        acc.candidates ++ paths.filterMap (candAt stats cutoff) ∧
      (pruneScanGo stats deleteOk dryRun cutoff paths acc).cutoff = acc.cutoff := by
  intro paths
  induction paths with
  | nil => intro acc; simp [pruneScanGo]
  | cons path rest ih =>
    intro acc
    simp only [pruneScanGo]
    cases hs : stats path with
    | none =>
      simp only [List.filterMap_cons, candAt, hs]
      exact ih acc
    | some st =>
      simp only [List.filterMap_cons, candAt, hs]
      by_cases hlt : st.mtimeMs < cutoff
      · simp only [if_pos hlt]
        by_cases hd : dryRun = true
        · simp only [if_pos hd]
          have := ih { acc with candidates := acc.candidates ++ [(path, st)] }
          simpa using this
        · simp only [if_neg hd]
          by_cases hk : deleteOk path = true
          · simp only [if_pos hk]
            have := ih { acc with candidates := acc.candidates ++ [(path, st)], deleted := acc.deleted ++ [path] }
            simpa using this
          · simp only [if_neg hk]
            have := ih { acc with candidates := acc.candidates ++ [(path, st)], errors := acc.errors ++ [path] }
            simpa using this
      · simp only [if_neg hlt]
        exact ih acc

theorem pruneResearchGo_spec (stats : Str → Option PruneStat) (deleteOk : Str → Bool)
    (dryRun : Bool) (cutoff : Int)
    (hok : dryRun = true ∨ ∀ p, deleteOk p = true) :
    ∀ (paths : List Str) (acc : PruneResults),
      (pruneResearchGo stats deleteOk dryRun cutoff paths acc).candidates =
        acc.candidates ++ paths.filterMap (candAt stats cutoff) ∧
      (pruneResearchGo stats deleteOk dryRun cutoff paths acc).cutoff = acc.cutoff := by
  intro paths
  induction paths with
  | nil => intro acc; simp [pruneResearchGo]
  | cons path rest ih =>
    intro acc
    simp only [pruneResearchGo]
    cases hs : stats path with
    | none =>
      simp only [List.filterMap_cons, candAt, hs]
      exact ih acc
    | some st =>
      simp only [List.filterMap_cons, candAt, hs]
      by_cases hlt : st.mtimeMs < cutoff
      · simp only [if_pos hlt]
        by_cases hd : dryRun = true
        · simp only [if_pos hd]
          have := ih { acc with candidates := acc.candidates ++ [(path, st)] }
          simpa using this
        · simp only [if_neg hd]
          have hk : deleteOk path = true := by
            rcases hok with h | h
            · exact absurd h hd
            · exact h path
          simp only [if_pos hk]
          have := ih { acc with candidates := acc.candidates ++ [(path, st)], deleted := acc.deleted ++ [path] }
          simpa using this
      · simp only [if_neg hlt]
        exact ih acc

theorem prune_foldl_spec (stats : Str → Option PruneStat) (deleteOk : Str → Bool)
    (dryRun : Bool) (cutoff : Int) :
    ∀ (lists : List (List Str)) (acc : PruneResults),
      (lists.foldl (fun a paths => pruneScanGo stats deleteOk dryRun cutoff paths a)
          acc).candidates =
        acc.candidates ++ lists.flatten.filterMap (candAt stats cutoff) ∧
      (lists.foldl (fun a paths => pruneScanGo stats deleteOk dryRun cutoff paths a)
          acc).cutoff = acc.cutoff := by
  intro lists
  induction lists with
  | nil => intro acc; simp
  | cons l ls ih =>
    intro acc
    simp only [List.foldl_cons, List.flatten_cons, List.filterMap_append]
    obtain ⟨ih1, ih2⟩ := ih (pruneScanGo stats deleteOk dryRun cutoff l acc)
    obtain ⟨hs1, hs2⟩ := pruneScanGo_spec stats deleteOk dryRun cutoff l acc
    constructor
    · rw [ih1, hs1, List.append_assoc]
    · rw [ih2, hs2]

theorem pruneResearch_foldl_spec (stats : Str → Option PruneStat) (deleteOk : Str → Bool)
    (dryRun : Bool) (cutoff : Int)
    (hok : dryRun = true ∨ ∀ p, deleteOk p = true) :
    ∀ (lists : List (List Str)) (acc : PruneResults),
      (lists.foldl (fun a paths => pruneResearchGo stats deleteOk dryRun cutoff paths a)
          acc).candidates =
        acc.candidates ++ lists.flatten.filterMap (candAt stats cutoff) ∧
      (lists.foldl (fun a paths => pruneResearchGo stats deleteOk dryRun cutoff paths a)
          acc).cutoff = acc.cutoff := by
  intro lists
  induction lists with
  | nil => intro acc; simp
  | cons l ls ih =>
    intro acc
    simp only [List.foldl_cons, List.flatten_cons, List.filterMap_append]
    obtain ⟨ih1, ih2⟩ := ih (pruneResearchGo stats deleteOk dryRun cutoff l acc)
    obtain ⟨hs1, hs2⟩ := pruneResearchGo_spec stats deleteOk dryRun cutoff hok l acc
    constructor
    · rw [ih1, hs1, List.append_assoc]
    · rw [ih2, hs2]

/-- C8 (counterexample): with `days = 0` the one-second nudge exists only in
`prune`; `pruneResearch` uses the bare `now - days` cutoff, so a research
note whose modification time is the invocation instant is a candidate for
`prune` but not for `pruneResearch`. -/
theorem C8_counterexample :
    pruneCutoff 1700000000000 0 = 1700000000000 + 1000 ∧
    pruneResearchCutoff 1700000000000 0 = 1700000000000 ∧
    (prune (fun _ => some { mtimeMs := 1700000000000, size := 1 }) (fun _ => true)
        0 true 1700000000000 [[("n.md").toList]]).candidates ≠ [] ∧
    (pruneResearch (fun _ => some { mtimeMs := 1700000000000, size := 1 }) (fun _ => true)
        0 true 1700000000000 [[("n.md").toList]]).candidates = [] := by
  refine ⟨by decide, by decide, by decide, by decide⟩

/-- C8 (amended): in `prune` the deletion cutoff is the invocation time
minus the given days, nudged one second into the future when `days = 0`;
in `pruneResearch` the cutoff is the invocation time minus the given days
with no nudge.  In both, a note is recorded as a candidate exactly when it
has stats and its modification time is strictly before that method's
cutoff (for `pruneResearch` under dry-run or failure-free deletion, since
its directory-level catch abandons a directory after a failed unlink). -/
theorem C8_prune_cutoffs (stats : Str → Option PruneStat) (deleteOk : Str → Bool)
    (days : Nat) (dryRun : Bool) (nowMs : Int)
    (folderLists researchDirs : List (List Str))
    (hok : dryRun = true ∨ ∀ p, deleteOk p = true) :
    (prune stats deleteOk days dryRun nowMs folderLists).cutoff =
      nowMs - days * msPerDay + (if days = 0 then 1000 else 0) ∧
    (pruneResearch stats deleteOk days dryRun nowMs researchDirs).cutoff =
      nowMs - days * msPerDay ∧
    (prune stats deleteOk days dryRun nowMs folderLists).candidates =
      folderLists.flatten.filterMap (candAt stats (pruneCutoff nowMs days)) ∧
    (pruneResearch stats deleteOk days dryRun nowMs researchDirs).candidates =
      researchDirs.flatten.filterMap (candAt stats (pruneResearchCutoff nowMs days)) := by
  obtain ⟨h1, h2⟩ := prune_foldl_spec stats deleteOk dryRun (pruneCutoff nowMs days)
    folderLists { cutoff := pruneCutoff nowMs days, candidates := [], deleted := [], errors := [] }
  obtain ⟨h3, h4⟩ := pruneResearch_foldl_spec stats deleteOk dryRun
    (pruneResearchCutoff nowMs days) hok researchDirs
    { cutoff := pruneResearchCutoff nowMs days, candidates := [], deleted := [], errors := [] }
  refine ⟨?_, ?_, ?_, ?_⟩
  · show (prune stats deleteOk days dryRun nowMs folderLists).cutoff = _
    unfold prune
    rw [h2]
    unfold pruneCutoff
    by_cases hd : days = 0
    · simp [hd]
    · simp [hd]
  · unfold pruneResearch
    rw [h4]
    rfl
  · unfold prune
    rw [h1]
    simp
  · unfold pruneResearch
    rw [h3]
    simp

/-- C8 witness: the amended statement at `days = 2`, one handoff note and
one research note. -/
theorem C8_prune_cutoffs_witness :
    (prune (fun _ => some { mtimeMs := 5, size := 1 }) (fun _ => true)
        2 true 172800010 [[("a.md").toList]]).cutoff = 172800010 - 2 * msPerDay + 0 ∧
    (pruneResearch (fun _ => some { mtimeMs := 5, size := 1 }) (fun _ => true)
        2 true 172800010 [[("b.md").toList]]).cutoff = 172800010 - 2 * msPerDay ∧
    (prune (fun _ => some { mtimeMs := 5, size := 1 }) (fun _ => true)
        2 true 172800010 [[("a.md").toList]]).candidates =
      [[("a.md").toList]].flatten.filterMap
        (candAt (fun _ => some { mtimeMs := 5, size := 1 }) (pruneCutoff 172800010 2)) ∧
    (pruneResearch (fun _ => some { mtimeMs := 5, size := 1 }) (fun _ => true)
        2 true 172800010 [[("b.md").toList]]).candidates =
      [[("b.md").toList]].flatten.filterMap
        (candAt (fun _ => some { mtimeMs := 5, size := 1 }) (pruneResearchCutoff 172800010 2)) := by
  have h := C8_prune_cutoffs (fun _ => some { mtimeMs := 5, size := 1 }) (fun _ => true)
    2 true 172800010 [[("a.md").toList]] [[("b.md").toList]] (Or.inl rfl)
  obtain ⟨h1, h2, h3, h4⟩ := h
  exact ⟨by rw [h1]; decide, h2, h3, h4⟩

/-- C7 (counterexample): the Phases section of the catalog is not truncated
to 20 entries: with 21 readable phase notes the rendered catalog displays
all 21 phase entry lines (and `_catalogPhases` consults no modification
times at all, so the section is in directory-traversal order, not
mtime-sorted). -/
theorem C7_counterexample :
    phasesDisplayedCount (generateCatalog
      { files := ((List.range 21).map (fun i => 'p' :: natToChars i)).map
          (fun p => (p, Except.ok (("---\na: b\n---\n\nx").toList))) }
      (fun _ => none) [] [] ((List.range 21).map (fun i => 'p' :: natToChars i))
      (("g").toList)).1 = 21 ∧ 20 < 21 :=
  ⟨by decide, by decide⟩

/-- C7 (amended): the catalog groups notes into three sections.  The
Handoffs and Sessions sections are each sorted by modification time
descending, their displayed lists are truncated to the most recent 20
entries, and the reported totals are the true numbers of notes with stats
in those sections.  The Phases section lists every readable phase note in
directory-traversal order, untruncated and without consulting modification
times, with its reported total the number of readable phase notes. -/
theorem C7_catalog_sections (fs : FS) (stats : Str → Option StatInfo)
    (hp sp pp : List Str) (genIso : Str) :
    List.Sorted catalogLe (generateCatalog fs stats hp sp pp genIso).2.handoffs ∧
    (generateCatalog fs stats hp sp pp genIso).2.handoffs.length =
      (hp.filterMap (fun p => (stats p).map (fun st => CatalogItem.mk p st))).length ∧
    List.Sorted catalogLe (generateCatalog fs stats hp sp pp genIso).2.sessions ∧
    (generateCatalog fs stats hp sp pp genIso).2.sessions.length =
      (sp.filterMap (fun p => (stats p).map (fun st => CatalogItem.mk p st))).length ∧
    (generateCatalog fs stats hp sp pp genIso).2.phases = pp.filterMap (phaseItemOf fs) ∧
    (generateCatalog fs stats hp sp pp genIso).1 =
      ("# Vault Catalog\n\n").toList ++
      ("Generated: ").toList ++ genIso ++ ("\n\n").toList ++
      ("## Handoffs\n\n").toList ++
      ("Total: ").toList ++
        natToChars (generateCatalog fs stats hp sp pp genIso).2.handoffs.length ++
        ("\n\n").toList ++
      ((((generateCatalog fs stats hp sp pp genIso).2.handoffs.take 20).map
          itemEntryLine).flatten ++
        (if (generateCatalog fs stats hp sp pp genIso).2.handoffs.length > 20 then
          '\n' :: (("... and ").toList ++
            natToChars ((generateCatalog fs stats hp sp pp genIso).2.handoffs.length - 20) ++
            (" more\n").toList)
        else [])) ++
      ("\n## Sessions\n\n").toList ++
      ("Total: ").toList ++
        natToChars (generateCatalog fs stats hp sp pp genIso).2.sessions.length ++
        ("\n\n").toList ++
      ((((generateCatalog fs stats hp sp pp genIso).2.sessions.take 20).map
          itemEntryLine).flatten ++
        (if (generateCatalog fs stats hp sp pp genIso).2.sessions.length > 20 then
          '\n' :: (("... and ").toList ++
            natToChars ((generateCatalog fs stats hp sp pp genIso).2.sessions.length - 20) ++
            (" more\n").toList)
        else [])) ++
      ("\n## Phases\n\n").toList ++
      ("Total: ").toList ++
        natToChars (generateCatalog fs stats hp sp pp genIso).2.phases.length ++
        ("\n\n").toList ++
      ((generateCatalog fs stats hp sp pp genIso).2.phases.map phaseEntryLine).flatten := by
  refine ⟨List.sorted_insertionSort catalogLe _,
    (List.perm_insertionSort catalogLe _).length_eq, List.sorted_insertionSort catalogLe _,
    (List.perm_insertionSort catalogLe _).length_eq, rfl, rfl⟩

theorem getLast_app (a b : Str) (c : Char) (h : b.reverse.head? = some c) :
    (a ++ b).reverse.head? = some c := by
  rw [List.reverse_append]
  cases hb : b.reverse with
  | nil => rw [hb] at h; exact absurd h (by simp)
  | cons x t =>
    rw [hb] at h
    simp only [List.head?_cons, Option.some.injEq] at h
    subst h
    rfl

theorem getLast_cons (x : Char) (b : Str) (c : Char) (h : b.reverse.head? = some c) :
    (x :: b).reverse.head? = some c := getLast_app [x] b c h

theorem dropTrail_eq_self_of_last (s : Str) (c : Char) (h : s.reverse.head? = some c)
    (hc : isWs c = false) : dropTrail s = s := by
  unfold dropTrail
  cases hb : s.reverse with
  | nil =>
    have hs : s = [] := by
      have := congrArg List.reverse hb
      simpa using this
    rw [hs]
    rfl
  | cons x t =>
    rw [hb] at h
    simp only [List.head?_cons, Option.some.injEq] at h
    subst h
    rw [List.dropWhile_cons, if_neg (by simp [hc])]
    have := congrArg List.reverse hb
    simpa using this.symm

theorem trimmedB_ends (s : Str) (a b : Char) (h1 : s.head? = some a)
    (h2 : s.reverse.head? = some b) (ha : isWs a = false) (hb : isWs b = false) :
    trimmedB s = true := by
  have hd : s.dropWhile isWs = s := by
    cases s with
    | nil => rfl
    | cons x t =>
      simp only [List.head?_cons, Option.some.injEq] at h1
      subst h1
      exact dropWhile_isWs_head _ _ ha
  simp [trimmedB, hd, dropTrail_eq_self_of_last s b h2 hb]

theorem saneStr_last (s : Str) (h : saneStr s = true) :
    ∃ c, s.reverse.head? = some c ∧ isWs c = false := by
  simp only [saneStr, Bool.and_eq_true] at h
  obtain ⟨⟨hne, htr⟩, _⟩ := h
  simp only [trimmedB, Bool.and_eq_true, decide_eq_true_eq] at htr
  have hdt := htr.2
  have hrev : s.reverse.dropWhile isWs = s.reverse := by
    have := congrArg List.reverse hdt
    simpa [dropTrail] using this
  cases hb : s.reverse with
  | nil =>
    have hs : s = [] := by
      have := congrArg List.reverse hb
      simpa using this
    rw [hs] at hne
    simp at hne
  | cons x t =>
    rw [hb] at hrev
    refine ⟨x, rfl, ?_⟩
    rw [List.dropWhile_cons] at hrev
    by_contra hx
    simp only [Bool.not_eq_false] at hx
    rw [if_pos hx] at hrev
    have hlen := congrArg List.length hrev
    have hle := (List.dropWhile_sublist (p := isWs) (l := t)).length_le
    simp at hlen
    omega

theorem isEmpty_false_of_head (s : Str) (c : Char) (h : s.head? = some c) :
    s.isEmpty = false := by
  cases s with
  | nil => simp at h
  | cons x t => rfl

theorem noNl_app (a b : Str) (ha : noNl a = true) (hb : noNl b = true) :
    noNl (a ++ b) = true := by
  rw [noNl_iff] at *
  simp only [List.mem_append]
  tauto

theorem noNl_cons (c : Char) (s : Str) (hc : ¬ c = '\n') (hs : noNl s = true) :
    noNl (c :: s) = true := by
  rw [noNl_iff] at *
  simp only [List.mem_cons]
  rintro (h | h)
  · exact hc h.symm
  · exact hs h

theorem digitChar_ne_nl (n : Nat) : ¬ digitChar n = '\n' := by
  unfold digitChar
  split <;> decide

theorem nl_ne_digitChar (n : Nat) : ('\n' = digitChar n) = False := by
  unfold digitChar
  split <;> decide

theorem noNl_natDigitsGo (f n : Nat) : noNl (natDigitsGo f n) = true := by
  induction f generalizing n with
  | zero => rfl
  | succ f ih =>
    unfold natDigitsGo
    by_cases h : n < 10
    · rw [if_pos h]
      exact noNl_cons _ _ (digitChar_ne_nl n) rfl
    · rw [if_neg h]
      exact noNl_app _ _ (ih (n / 10)) (noNl_cons _ _ (digitChar_ne_nl _) rfl)

theorem noNl_natToChars (n : Nat) : noNl (natToChars n) = true :=
  noNl_natDigitsGo (n + 1) n

theorem noNl_timestampOf (d : DateTime) : noNl (timestampOf d) = true := by
  rw [noNl_iff]
  intro hmem
  simp [timestampOf, pad4, pad2, nl_ne_digitChar] at hmem

theorem noNl_generateFilename (ty sc slug : Str) (d : DateTime)
    (hty : noNl ty = true) (hsc : noNl sc = true) :
    noNl (generateFilename ty sc slug d) = true := by
  rw [generateFilename_eq]
  refine noNl_app _ _ (noNl_timestampOf d) ?_
  refine noNl_cons _ _ (by decide) (noNl_cons _ _ (by decide) ?_)
  refine noNl_app _ _ hty ?_
  refine noNl_cons _ _ (by decide) (noNl_cons _ _ (by decide) ?_)
  refine noNl_app _ _ hsc ?_
  refine noNl_cons _ _ (by decide) (noNl_cons _ _ (by decide) ?_)
  exact noNl_app _ _ (sanitizeSlug_noNl slug) (by decide)

theorem last_generateFilename (ty sc slug : Str) (d : DateTime) :
    (generateFilename ty sc slug d).reverse.head? = some 'd' := by
  rw [generateFilename_eq]
  refine getLast_app _ _ _ ?_
  refine getLast_cons _ _ _ (getLast_cons _ _ _ ?_)
  refine getLast_app _ _ _ ?_
  refine getLast_cons _ _ _ (getLast_cons _ _ _ ?_)
  refine getLast_app _ _ _ ?_
  refine getLast_cons _ _ _ (getLast_cons _ _ _ ?_)
  exact getLast_app _ _ _ rfl

theorem saneStr_of_parts (s : Str) (a b : Char) (h1 : s.head? = some a)
    (h2 : s.reverse.head? = some b) (ha : isWs a = false) (hb : isWs b = false)
    (hnl : noNl s = true) : saneStr s = true := by
  simp [saneStr, isEmpty_false_of_head s a h1, trimmedB_ends s a b h1 h2 ha hb, hnl]

theorem saneStr_topPath (sc ti : Str) (now : DateTime) (hsc : noNl sc = true) :
    saneStr (("handoffs/").toList ++ natToChars now.year ++ '/' ::
      (pad2 now.month ++ '/' :: generateFilename (("handoff").toList) sc ti now)) = true := by
  refine saneStr_of_parts _ 'h' 'd' rfl ?_ (by decide) (by decide) ?_
  · refine getLast_app _ _ _ ?_
    refine getLast_cons _ _ _ ?_
    refine getLast_app _ _ _ ?_
    refine getLast_cons _ _ _ ?_
    exact last_generateFilename _ _ _ _
  · refine noNl_app _ _ ?_ ?_
    · exact noNl_app _ _ (by decide) (noNl_natToChars _)
    · refine noNl_cons _ _ (by decide) ?_
      refine noNl_app _ _ ?_ ?_
      · rw [noNl_iff]; intro hmem; simp [pad2, nl_ne_digitChar] at hmem
      · exact noNl_cons _ _ (by decide) (noNl_generateFilename _ _ _ _ (by decide) hsc)

theorem saneStr_phasePath (pid ti : Str) (now : DateTime) (hpid : noNl pid = true) :
    saneStr (("phases/").toList ++ pid ++ '/' ::
      (("handoffs/").toList ++ generateFilename (("handoff").toList) (("phase").toList) ti now)) = true := by
  refine saneStr_of_parts _ 'p' 'd' rfl ?_ (by decide) (by decide) ?_
  · refine getLast_app _ _ _ ?_
    refine getLast_cons _ _ _ ?_
    refine getLast_app _ _ _ ?_
    exact last_generateFilename _ _ _ _
  · refine noNl_app _ _ (noNl_app _ _ (by decide) hpid) ?_
    refine noNl_cons _ _ (by decide) ?_
    exact noNl_app _ _ (by decide)
      (noNl_generateFilename _ _ _ _ (by decide) (by decide))

theorem validFm_idxFmOf (note : Note) (iu inw : Str)
    (hiu : saneStr iu = true) (hinw : saneStr inw = true)
    (hpath : saneStr note.path = true)
    (hid : validValue (fmIdVal note.frontmatter) = true) :
    validFm (idxFmOf note iu inw) = true := by
  have he : idxFmOf note iu inw =
    [(("id").toList, .vstr iu), (("type").toList, .vstr (("index").toList)),
     (("created_at").toList, .vstr inw), (("updated_at").toList, .vstr inw),
     (("session_id").toList, .vnull), (("phase_id").toList, .vnull),
     (("status").toList, .vstr (("active").toList)),
     (("tags").toList, .varr [("index").toList, ("latest-handoff").toList]),
     (("links").toList, .varr []),
     (("handoff_path").toList, .vstr note.path),
     (("handoff_id").toList, fmIdVal note.frontmatter),
     (("title").toList, .vstr (("Latest Handoff").toList))] := rfl
  simp only [saneStr, Bool.and_eq_true] at hiu hinw hpath
  rw [he]
  have hvs : ∀ s, validValue (.vstr s) = (!s.isEmpty && trimmedB s && noNl s) :=
    fun _ => rfl
  have hvn : validValue .vnull = true := rfl
  have hva : ∀ its, validValue (.varr its) = its.all validItem := fun _ => rfl
  simp +decide [validFm, keysNodup, hvs, hvn, hva, validItem, hid,
    hiu.1.1, hiu.1.2, hiu.2, hinw.1.1, hinw.1.2, hinw.2,
    hpath.1.1, hpath.1.2, hpath.2]

theorem trimmedB_idxContentOf (note : Note) (inw : Str) (h : saneStr inw = true) :
    trimmedB (idxContentOf note inw) = true := by
  obtain ⟨c, hc, hcw⟩ := saneStr_last inw h
  exact trimmedB_ends _ '#' c rfl (getLast_app _ _ _ hc) (by decide) hcw

theorem latest_after_update (fs : FS) (note : Note) (iu inw nc : Str)
    (hfm : validFm (idxFmOf note iu inw) = true)
    (hbody : trimmedB (idxContentOf note inw) = true)
    (hne : ¬ note.path = latestHandoffIndexPath)
    (hnp : note.path.isEmpty = false)
    (hc : fsLookup fs note.path = some (Except.ok nc)) :
    ∃ idx n : Note,
      readNote (updateLatestHandoff fs note iu inw) latestHandoffIndexPath =
        Except.ok idx ∧
      lookupFm idx.frontmatter (("handoff_path").toList) = some (.vstr note.path) ∧
      getLatestHandoff (updateLatestHandoff fs note iu inw) = some n ∧
      n.path = note.path := by
  have hup : updateLatestHandoff fs note iu inw =
      fsWrite fs latestHandoffIndexPath
        (serializeFrontmatter (idxFmOf note iu inw) (idxContentOf note inw)) := by
    unfold updateLatestHandoff updateNote createNote
    split <;> rfl
  have hidx : readNote (updateLatestHandoff fs note iu inw) latestHandoffIndexPath =
      Except.ok { path := latestHandoffIndexPath,
                  frontmatter := normFm (idxFmOf note iu inw),
                  body := idxContentOf note inw } := by
    rw [hup]
    exact readNote_createNote fs latestHandoffIndexPath _ _ hfm hbody
  have hlook : lookupFm (normFm (idxFmOf note iu inw)) (("handoff_path").toList) =
      some (.vstr note.path) := rfl
  have hex2 : fsExists (updateLatestHandoff fs note iu inw) latestHandoffIndexPath = true := by
    rw [hup]
    exact fsExists_fsWrite_self _ _ _
  have hlkn : fsLookup (updateLatestHandoff fs note iu inw) note.path =
      some (Except.ok nc) := by
    rw [hup, fsLookup_fsWrite_ne _ _ _ _ hne]
    exact hc
  have hexn : fsExists (updateLatestHandoff fs note iu inw) note.path = true := by
    simp [fsExists, hlkn]
  have hrn : readNote (updateLatestHandoff fs note iu inw) note.path =
      Except.ok { path := note.path,
                  frontmatter := (parseFrontmatter nc).frontmatter,
                  body := (parseFrontmatter nc).body } := by
    simp only [readNote, hexn, hlkn, if_true]
  refine ⟨{ path := latestHandoffIndexPath,
            frontmatter := normFm (idxFmOf note iu inw),
            body := idxContentOf note inw },
          { path := note.path,
            frontmatter := (parseFrontmatter nc).frontmatter,
            body := (parseFrontmatter nc).body },
          hidx, hlook, ?_, rfl⟩
  simp only [getLatestHandoff, hex2, hidx, hlook, hnp, hexn, hrn, if_true,
    Bool.not_false, Bool.true_and]

/-- C4: after every handoff-creating operation completes — top-level
`createHandoff` or phase-scoped `createPhaseHandoff` — the latest-handoff
index references the handoff note just created: reading
`indexes/latest-handoff.md` in the resulting vault yields a frontmatter
whose `handoff_path` equals the created note path, and `getLatestHandoff`
resolves to a note at exactly that path.  This holds over any prior vault
state, so the index always references the most-recently-created handoff
note system-wide, whether top-level or phase-scoped. -/
theorem C4_latest_handoff_index (fs : FS) (op : HandoffOp) (h : opSane op = true) :
    ∃ idx n : Note,
      readNote (applyOp fs op).1 latestHandoffIndexPath = Except.ok idx ∧
      lookupFm idx.frontmatter (("handoff_path").toList) =
        some (.vstr (applyOp fs op).2.path) ∧
      getLatestHandoff (applyOp fs op).1 = some n ∧
      n.path = (applyOp fs op).2.path := by
  cases op with
  | top sid pid t c tg nu su nf now iu inw =>
    simp only [opSane, Bool.and_eq_true] at h
    obtain ⟨⟨⟨⟨hnu, hsu⟩, hsid⟩, hiu⟩, hinw⟩ := h
    have hscope : noNl (orElseStr sid (("session").toList)) = true := by
      cases sid with
      | none => decide
      | some s =>
        simp only [orElseStr]
        split
        · decide
        · exact hsid
    apply latest_after_update
    case hc => exact fsLookup_fsWrite_self _ _ _
    case hfm =>
      refine validFm_idxFmOf _ iu inw hiu hinw ?_ ?_
      · exact saneStr_topPath _ t now hscope
      · exact hnu
    case hbody => exact trimmedB_idxContentOf _ inw hinw
    case hne =>
      intro heq
      have h1 : List.head? latestHandoffIndexPath = some 'h' := by
        rw [← heq]
        rfl
      exact absurd h1 (by decide)
    case hnp => exact isEmpty_false_of_head _ 'h' rfl
  | phaseScoped pid sid t c tg nu nf now iu inw =>
    simp only [opSane, Bool.and_eq_true] at h
    obtain ⟨⟨⟨hnu, hpid⟩, hiu⟩, hinw⟩ := h
    apply latest_after_update
    case hc => exact fsLookup_fsWrite_self _ _ _
    case hfm =>
      refine validFm_idxFmOf _ iu inw hiu hinw ?_ ?_
      · exact saneStr_phasePath pid t now hpid
      · exact hnu
    case hbody => exact trimmedB_idxContentOf _ inw hinw
    case hne =>
      intro heq
      have h1 : List.head? latestHandoffIndexPath = some 'p' := by
        rw [← heq]
        rfl
      exact absurd h1 (by decide)
    case hnp => exact isEmpty_false_of_head _ 'p' rfl

/-- C4 witness: the invariant holds at a concrete top-level `createHandoff`
on the empty vault. -/
theorem C4_latest_handoff_index_witness :
    opSane c4WitnessOp = true ∧
    (∃ idx n : Note,
      readNote (applyOp fsEmpty c4WitnessOp).1 latestHandoffIndexPath = Except.ok idx ∧
      lookupFm idx.frontmatter (("handoff_path").toList) =
        some (.vstr (applyOp fsEmpty c4WitnessOp).2.path) ∧
      getLatestHandoff (applyOp fsEmpty c4WitnessOp).1 = some n ∧
      n.path = (applyOp fsEmpty c4WitnessOp).2.path) :=
  ⟨by decide, C4_latest_handoff_index fsEmpty c4WitnessOp (by decide)⟩

theorem readNote_path (fs : FS) (p : Str) (m : Note)
    (h : readNote fs p = Except.ok m) : m.path = p := by
  unfold readNote at h
  split at h
  · split at h
    · injection h with h2
      rw [← h2]
    · exact absurd h (by simp)
  · exact absurd h (by simp)

/-- C10: `getLatestHandoff` is a total function that never raises.  It
returns a note only when the index file exists, reads and parses, its
`handoff_path` field is a nonempty string naming an existing file, and that
file reads successfully — and the returned note is exactly the one read
from that path.  It returns null when the index file is absent, when the
index read fails, when the parsed index lacks a `handoff_path` field, when
the field names a file that does not exist, and when reading the referenced
file fails. -/
theorem C10_getLatestHandoff_total (fs : FS) :
    (∀ n, getLatestHandoff fs = some n →
      fsExists fs latestHandoffIndexPath = true ∧
      ∃ idx, readNote fs latestHandoffIndexPath = Except.ok idx ∧
        lookupFm idx.frontmatter (("handoff_path").toList) = some (.vstr n.path) ∧
        n.path.isEmpty = false ∧ fsExists fs n.path = true ∧
        readNote fs n.path = Except.ok n) ∧
    (fsExists fs latestHandoffIndexPath = false → getLatestHandoff fs = none) ∧
    (∀ e, readNote fs latestHandoffIndexPath = Except.error e →
      getLatestHandoff fs = none) ∧
    (∀ idx, readNote fs latestHandoffIndexPath = Except.ok idx →
      lookupFm idx.frontmatter (("handoff_path").toList) = none →
      getLatestHandoff fs = none) ∧
    (∀ idx p, readNote fs latestHandoffIndexPath = Except.ok idx →
      lookupFm idx.frontmatter (("handoff_path").toList) = some (.vstr p) →
      fsExists fs p = false → getLatestHandoff fs = none) ∧
    (∀ idx p e, readNote fs latestHandoffIndexPath = Except.ok idx →
      lookupFm idx.frontmatter (("handoff_path").toList) = some (.vstr p) →
      readNote fs p = Except.error e → getLatestHandoff fs = none) := by
  refine ⟨?_, ?_, ?_, ?_, ?_, ?_⟩
  · intro n hn
    unfold getLatestHandoff at hn
    cases hex : fsExists fs latestHandoffIndexPath with
    | false => rw [hex] at hn; simp at hn
    | true =>
      rw [hex] at hn
      rw [if_pos rfl] at hn
      cases hri : readNote fs latestHandoffIndexPath with
      | error e => rw [hri] at hn; simp at hn
      | ok idx =>
        rw [hri] at hn
        simp only [] at hn
        cases hl : lookupFm idx.frontmatter (("handoff_path").toList) with
        | none => rw [hl] at hn; simp at hn
        | some v =>
          rw [hl] at hn
          cases v with
          | vnull => simp at hn
          | varr xs => simp at hn
          | vstr p =>
            simp only [] at hn
            by_cases hcond : (!p.isEmpty && fsExists fs p) = true
            · rw [if_pos hcond] at hn
              cases hrp : readNote fs p with
              | error e => rw [hrp] at hn; simp at hn
              | ok m =>
                rw [hrp] at hn
                simp only [Option.some.injEq] at hn
                subst hn
                have hp : m.path = p := readNote_path fs p m hrp
                simp only [Bool.and_eq_true, Bool.not_eq_true'] at hcond
                refine ⟨rfl, idx, rfl, ?_, ?_, ?_, ?_⟩
                · rw [hp]; exact hl
                · rw [hp]; exact hcond.1
                · rw [hp]; exact hcond.2
                · rw [hp]; exact hrp
            · rw [if_neg hcond] at hn
              simp at hn
  · intro h
    simp [getLatestHandoff, h]
  · intro e he
    simp [getLatestHandoff, he]
  · intro idx hi hl
    have hl2 : lookupFm idx.frontmatter
        (['h', 'a', 'n', 'd', 'o', 'f', 'f', '_', 'p', 'a', 't', 'h']) = none := hl
    simp [getLatestHandoff, hi, hl2]
  · intro idx p hi hl hpe
    have hl2 : lookupFm idx.frontmatter
        (['h', 'a', 'n', 'd', 'o', 'f', 'f', '_', 'p', 'a', 't', 'h']) =
        some (.vstr p) := hl
    simp [getLatestHandoff, hi, hl2, hpe]
  · intro idx p e hi hl hre
    have hl2 : lookupFm idx.frontmatter
        (['h', 'a', 'n', 'd', 'o', 'f', 'f', '_', 'p', 'a', 't', 'h']) =
        some (.vstr p) := hl
    simp [getLatestHandoff, hi, hl2, hre]

/-- C10 witness: on the empty vault the index file does not exist and
`getLatestHandoff` returns null. -/
theorem C10_getLatestHandoff_total_witness :
    fsExists fsEmpty latestHandoffIndexPath = false ∧
    getLatestHandoff fsEmpty = none :=
  ⟨by decide, (C10_getLatestHandoff_total fsEmpty).2.1 (by decide)⟩
